import Mathlib

/-!
Verification of the apply-YAML reconciler of terraform-provider-omni

Shallow embedding of `internal/omni/apply_yaml_resource.go`:

* the digest `generateResourceId` (strings.Join, crypto/sha256, encoding/hex),
* identity matching `resourcesMatch`,
* the per-object steps `processResource` and `deleteResource`,
* the three lifecycle entry points `Create`, `Update`, `Delete`,
* the document decoder loop `decodeYAMLResources`,
* the registration lists of `internal/omni/provider.go`.

The remote COSI state (`state.State`) is an external collaborator.  It is
modelled as a keyed object map with the documented failure conditions of its
four calls, a log of every call issued, and a schedule of injected failures.
-/

set_option autoImplicit false
set_option maxRecDepth 100000

namespace Omni

/-! ## SHA-256 (crypto/sha256.Sum256), over 32-bit words kept as `Nat` -/

namespace Sha256

/-- Addition modulo `2^32`. -/
def add32 (a b : Nat) : Nat := (a + b) % 4294967296

/-- Right rotation of a 32-bit word. -/
def rotr (n x : Nat) : Nat := ((x >>> n) ||| (x <<< (32 - n))) % 4294967296

/-- Bitwise complement of a 32-bit word. -/
def not32 (x : Nat) : Nat := 4294967295 - x % 4294967296

def ch (x y z : Nat) : Nat := (x &&& y) ^^^ (not32 x &&& z)

def maj (x y z : Nat) : Nat := (x &&& y) ^^^ (x &&& z) ^^^ (y &&& z)

def bigSigma0 (x : Nat) : Nat := rotr 2 x ^^^ rotr 13 x ^^^ rotr 22 x

def bigSigma1 (x : Nat) : Nat := rotr 6 x ^^^ rotr 11 x ^^^ rotr 25 x

def smallSigma0 (x : Nat) : Nat := rotr 7 x ^^^ rotr 18 x ^^^ (x >>> 3)

def smallSigma1 (x : Nat) : Nat := rotr 17 x ^^^ rotr 19 x ^^^ (x >>> 10)

/-- The round constants. -/
def K : List Nat :=
  [0x428a2f98, 0x71374491, 0xb5c0fbcf, 0xe9b5dba5, 0x3956c25b, 0x59f111f1, 0x923f82a4, 0xab1c5ed5,
   0xd807aa98, 0x12835b01, 0x243185be, 0x550c7dc3, 0x72be5d74, 0x80deb1fe, 0x9bdc06a7, 0xc19bf174,
   0xe49b69c1, 0xefbe4786, 0x0fc19dc6, 0x240ca1cc, 0x2de92c6f, 0x4a7484aa, 0x5cb0a9dc, 0x76f988da,
   0x983e5152, 0xa831c66d, 0xb00327c8, 0xbf597fc7, 0xc6e00bf3, 0xd5a79147, 0x06ca6351, 0x14292967,
   0x27b70a85, 0x2e1b2138, 0x4d2c6dfc, 0x53380d13, 0x650a7354, 0x766a0abb, 0x81c2c92e, 0x92722c85,
   0xa2bfe8a1, 0xa81a664b, 0xc24b8b70, 0xc76c51a3, 0xd192e819, 0xd6990624, 0xf40e3585, 0x106aa070,
   0x19a4c116, 0x1e376c08, 0x2748774c, 0x34b0bcb5, 0x391c0cb3, 0x4ed8aa4a, 0x5b9cca4f, 0x682e6ff3,
   0x748f82ee, 0x78a5636f, 0x84c87814, 0x8cc70208, 0x90befffa, 0xa4506ceb, 0xbef9a3f7, 0xc67178f2]

/-- The eight working words `a .. h`. -/
structure Digest where
  a : Nat
  b : Nat
  c : Nat
  d : Nat
  e : Nat
  f : Nat
  g : Nat
  h : Nat
  deriving DecidableEq, Repr

/-- The initial hash value. -/
def init : Digest :=
  ⟨0x6a09e667, 0xbb67ae85, 0x3c6ef372, 0xa54ff53a, 0x510e527f, 0x9b05688c, 0x1f83d9ab, 0x5be0cd19⟩

/-- Padding: a `0x80` byte, zero bytes up to 56 modulo 64, then the bit length
as a 64-bit big-endian integer. -/
def pad (msg : List Nat) : List Nat :=
  let bits := (msg.length * 8) % 18446744073709551616
  msg ++ [0x80] ++ List.replicate ((119 - msg.length % 64) % 64) 0 ++
    (List.range 8).map (fun i => (bits >>> (8 * (7 - i))) % 256)

/-- Cut the first `n` 64-byte blocks off a byte list. -/
def blocks : Nat → List Nat → List (List Nat)
  | 0, _ => []
  | n + 1, bs => bs.take 64 :: blocks n (bs.drop 64)

/-- The sixteen big-endian message words of one block. -/
def blockWords (blk : List Nat) : List Nat :=
  (List.range 16).map (fun i =>
    blk.getD (4 * i) 0 * 16777216 + blk.getD (4 * i + 1) 0 * 65536 +
      blk.getD (4 * i + 2) 0 * 256 + blk.getD (4 * i + 3) 0)

/-- Extend the message schedule by `n` further words. -/
def extend : Nat → List Nat → List Nat
  | 0, w => w
  | n + 1, w =>
    let i := w.length
    extend n (w ++ [add32 (add32 (add32 (smallSigma1 (w.getD (i - 2) 0)) (w.getD (i - 7) 0))
      (smallSigma0 (w.getD (i - 15) 0))) (w.getD (i - 16) 0)])

/-- One round of the compression function. -/
def round (s : Digest) (kw : Nat × Nat) : Digest :=
  let t1 := add32 (add32 (add32 (add32 s.h (bigSigma1 s.e)) (ch s.e s.f s.g)) kw.1) kw.2
  let t2 := add32 (bigSigma0 s.a) (maj s.a s.b s.c)
  ⟨add32 t1 t2, s.a, s.b, s.c, add32 s.d t1, s.e, s.f, s.g⟩

/-- Compress one block into the running hash value. -/
def compress (hv : Digest) (blk : List Nat) : Digest :=
  let s := (K.zip (extend 48 (blockWords blk))).foldl round hv
  ⟨add32 hv.a s.a, add32 hv.b s.b, add32 hv.c s.c, add32 hv.d s.d,
   add32 hv.e s.e, add32 hv.f s.f, add32 hv.g s.g, add32 hv.h s.h⟩

/-- The four big-endian bytes of a word. -/
def wordBytes (w : Nat) : List Nat :=
  [(w >>> 24) % 256, (w >>> 16) % 256, (w >>> 8) % 256, w % 256]

/-- The 32 bytes of `sha256.Sum256(msg)`. -/
def sum256 (msg : List Nat) : List Nat :=
  let p := pad msg
  let s := (blocks (p.length / 64) p).foldl compress init
  wordBytes s.a ++ wordBytes s.b ++ wordBytes s.c ++ wordBytes s.d ++
    wordBytes s.e ++ wordBytes s.f ++ wordBytes s.g ++ wordBytes s.h

end Sha256

/-! ## Digest of the applied identity list -/

/-- The bytes of a Go string: its UTF-8 encoding. -/
def stringBytes (s : String) : List Nat :=
  s.data.flatMap (fun c => (String.utf8EncodeChar c).map (fun b => b.toNat))

/-- The lowercase digit of `encoding/hex` for a value below 16. -/
def hexDigit (n : Nat) : Char :=
  "0123456789abcdef".data.getD n '0'

/-- The Go function `hex.EncodeToString`: two lowercase digits per byte. -/
def hexEncodeToString (bs : List Nat) : String :=
  String.mk (bs.flatMap (fun b => [hexDigit (b / 16 % 16), hexDigit (b % 16)]))

/-- The Go function `strings.Join(arr, sep)`. -/
def stringsJoin (arr : List String) (sep : String) : String :=
  sep.intercalate arr

/-- The method `applyYamlResource.generateResourceId`. -/
def generateResourceId (arr : List String) : String :=
  let join := stringsJoin arr "-"
  let sum := Sha256.sum256 (stringBytes join)
  hexEncodeToString sum

/-- The join in the words of the spec, written out by recursion: the elements in order
with one `-` between neighbours.  It is what `stringsJoin arr "-"` is compared with. -/
def joinWithHyphen : List String → String
  | [] => ""
  | [a] => a
  | a :: b :: rest => a ++ "-" ++ joinWithHyphen (b :: rest)

/-! ## Data model -/

/-- A `resource.Version`; `none` is `VersionUndefined`. -/
abbrev Version := Option Nat

/-- A `resource.Pointer`: the key of an object in the remote state. -/
structure Pointer where
  ns : String
  typ : String
  id : String
  deriving DecidableEq, Repr

/-- The part of `resource.Metadata` the reconciler reads and writes:
`Namespace()`, `Type()`, `ID()` and `Version()`. -/
structure Metadata where
  ns : String
  typ : String
  id : String
  version : Version
  deriving DecidableEq, Repr

/-- A `cosi_res.Resource`: metadata and a payload that the reconciler never inspects. -/
structure Resource where
  md : Metadata
  spec : String
  deriving DecidableEq, Repr

/-- The pointer that `st.Get` and `st.Destroy` read off a `Metadata`. -/
def Metadata.ptr (md : Metadata) : Pointer := ⟨md.ns, md.typ, md.id⟩

/-- The call `resource.Metadata().SetVersion(v)`. -/
def Resource.SetVersion (r : Resource) (v : Version) : Resource :=
  { r with md := { r.md with version := v } }

/-- The type `ResourceOperationMode`. -/
inductive ResourceOperationMode
  | ModeCreateOnly
  | ModeCreateOrUpdate
  deriving DecidableEq, Repr

/-- A `diag.Diagnostic` of error severity: summary and detail. -/
structure Diagnostic where
  summary : String
  detail : String
  deriving DecidableEq, Repr

/-- The result of a call of the resource: its value, an error diagnostic, or a Go panic,
with which the call does not return. -/
inductive Outcome (α : Type) where
  | ok (a : α)
  | error (d : Diagnostic)
  | panic (msg : String)
  deriving DecidableEq, Repr

def errCreationFailed : String := "Creation Error"
def errUpdateFailed : String := "Update Error"
def errDeleteFailed : String := "Delete Error"
def errContextError : String := "Context Error"
def errYAMLDecodingError : String := "YAML Decoding Error"

/-! ## The remote state (external collaborator) -/

/-- Errors of the remote state. `state.IsNotFoundError` recognises `notFound`. -/
inductive StoreErr
  | notFound (ptr : Pointer)
  | alreadyExists (ptr : Pointer)
  | versionConflict (ptr : Pointer)
  | failure (msg : String)
  deriving DecidableEq, Repr

/-- The function `state.IsNotFoundError`. -/
def StoreErr.IsNotFoundError : StoreErr → Bool
  | .notFound _ => true
  | _ => false

/-- The text of a store error, as printed by `%v`. -/
def StoreErr.Error : StoreErr → String
  | .notFound p => "resource " ++ p.typ ++ "(" ++ p.ns ++ "/" ++ p.id ++ ") doesn\x27t exist"
  | .alreadyExists p => "resource " ++ p.typ ++ "(" ++ p.ns ++ "/" ++ p.id ++ ") already exists"
  | .versionConflict p => "resource " ++ p.typ ++ "(" ++ p.ns ++ "/" ++ p.id ++ ") update conflict"
  | .failure msg => msg

/-- A call issued to the remote state. -/
inductive StoreOp
  | get (ptr : Pointer)
  | create (r : Resource)
  | update (r : Resource)
  | destroy (ptr : Pointer)
  deriving DecidableEq, Repr

/-- The remote state: the stored object under each pointer, and the calls issued so far
(oldest first). -/
structure State where
  objs : Pointer → Option Resource
  log : List StoreOp

/-- A schedule of injected failures (transport errors and the like): the error,
if any, with which the call number `n` fails when it is `op`. -/
abbrev Faults := Nat → StoreOp → Option StoreErr

/-- The schedule under which no call fails for an outside reason. -/
def noFaults : Faults := fun _ _ => none

/-- The version a stored object gets on update. -/
def Version.Next : Version → Version
  | none => some 1
  | some n => some (n + 1)

/-- Append a call to the log. -/
def State.record (st : State) (op : StoreOp) : State :=
  { st with log := st.log ++ [op] }

/-- The call `st.Get`: the stored object, or a not-found error. -/
def State.Get (flt : Faults) (st : State) (ptr : Pointer) : Except StoreErr Resource × State :=
  match flt st.log.length (.get ptr) with
  | some err => (.error err, st.record (.get ptr))
  | none =>
    match st.objs ptr with
    | some r => (.ok r, st.record (.get ptr))
    | none => (.error (.notFound ptr), st.record (.get ptr))

/-- The call `st.Create`: fails if an object is already stored under the pointer. -/
def State.Create (flt : Faults) (st : State) (r : Resource) : Option StoreErr × State :=
  match flt st.log.length (.create r) with
  | some err => (some err, st.record (.create r))
  | none =>
    match st.objs r.md.ptr with
    | some _ => (some (.alreadyExists r.md.ptr), st.record (.create r))
    | none =>
      (none, { objs := fun p => if p = r.md.ptr then some r else st.objs p,
               log := st.log ++ [.create r] })

/-- The call `st.Update`: fails if nothing is stored under the pointer or if the
payload does not carry the stored version; the stored version is then advanced. -/
def State.Update (flt : Faults) (st : State) (r : Resource) : Option StoreErr × State :=
  match flt st.log.length (.update r) with
  | some err => (some err, st.record (.update r))
  | none =>
    match st.objs r.md.ptr with
    | none => (some (.notFound r.md.ptr), st.record (.update r))
    | some cur =>
      if cur.md.version = r.md.version then
        (none, { objs := fun p =>
                   if p = r.md.ptr then some (r.SetVersion r.md.version.Next) else st.objs p,
                 log := st.log ++ [.update r] })
      else (some (.versionConflict r.md.ptr), st.record (.update r))

/-- The call `st.Destroy`: fails if nothing is stored under the pointer. -/
def State.Destroy (flt : Faults) (st : State) (ptr : Pointer) : Option StoreErr × State :=
  match flt st.log.length (.destroy ptr) with
  | some err => (some err, st.record (.destroy ptr))
  | none =>
    match st.objs ptr with
    | none => (some (.notFound ptr), st.record (.destroy ptr))
    | some _ =>
      (none, { objs := fun p => if p = ptr then none else st.objs p,
               log := st.log ++ [.destroy ptr] })

/-! ## The document decoder -/

/-- The outcome of one `decoder.Decode(&yamlResource)` call on a document of the
input.  A document that decodes assigns a new resource to `yamlResource`; a malformed
document makes `Decode` return an error; a null document (an empty document, such as the
one a trailing `---` opens) makes `Decode` return nil without touching `yamlResource`.
End of input is the end of the list. -/
inductive Document
  | resource (r : Resource)
  | malformed (err : String)
  | null
  deriving DecidableEq, Repr

/-- The `context.Context` of a call: the value of `ctx.Err()`, `none` while live. -/
structure Context where
  err : Option String
  deriving DecidableEq, Repr

/-- The context `context.Background()`. -/
def Context.Background : Context := ⟨none⟩

/-- The loop of `decodeYAMLResources`, with the variable `yamlResource`, declared once
before the loop (`none` while nothing has been decoded into it), and the resources
collected so far.  Every iteration first checks `ctx.Err()` and then decodes the next
document into `yamlResource`; at the end of the input the decoder reports `io.EOF` and
the loop is left.  After every `Decode` without error the loop appends
`yamlResource.Resource()`, which panics with `resource is not set` when the variable
holds no resource: after a null document that is the resource of the previous document,
or the panic when there is none. -/
def decodeLoop (ctx : Context) :
    List Document → Option Resource → List Resource → Outcome (List Resource)
  | [], _, resources =>
    match ctx.err with
    | some err => .error ⟨errContextError, "Operation cancelled: " ++ err⟩
    | none => .ok resources
  | doc :: rest, yamlResource, resources =>
    match ctx.err with
    | some err => .error ⟨errContextError, "Operation cancelled: " ++ err⟩
    | none =>
      match doc with
      | .malformed err => .error ⟨errYAMLDecodingError, "Failed to decode YAML: " ++ err⟩
      | .resource r => decodeLoop ctx rest (some r) (resources ++ [r])
      | .null =>
        match yamlResource with
        | none => .panic "resource is not set"
        | some r => decodeLoop ctx rest (some r) (resources ++ [r])

/-- The method `applyYamlResource.decodeYAMLResources`. -/
def decodeYAMLResources (ctx : Context) (yamlInput : List Document) :
    Outcome (List Resource) :=
  decodeLoop ctx yamlInput none []

/-! ## The reconciler -/

/-- The method `applyYamlResource.resourcesMatch`. -/
def resourcesMatch (a b : Resource) : Bool :=
  a.md.id == b.md.id && a.md.typ == b.md.typ && a.md.ns == b.md.ns

/-- The method `applyYamlResource.processResource`; `none` is a nil error. -/
def processResource (flt : Faults) (st : State) (resource : Resource)
    (mode : ResourceOperationMode) : Option String × State :=
  match st.Get flt resource.md.ptr with
  | (.error err, st1) =>
    if err.IsNotFoundError then
      match st1.Create flt resource with
      | (some err, st2) =>
        (some ("failed to create resource \x27" ++ resource.md.id ++ "\x27 of type \x27" ++
          resource.md.typ ++ "\x27: " ++ err.Error), st2)
      | (none, st2) => (none, st2)
    else
      (some ("failed to check resource \x27" ++ resource.md.id ++ "\x27 of type \x27" ++
        resource.md.typ ++ "\x27: " ++ err.Error), st1)
  | (.ok result, st1) =>
    match mode with
    | .ModeCreateOnly =>
      (some ("resource \x27" ++ resource.md.id ++ "\x27 of type \x27" ++ resource.md.typ ++
        "\x27 already exists"), st1)
    | .ModeCreateOrUpdate =>
      match st1.Update flt (resource.SetVersion result.md.version) with
      | (some err, st2) =>
        (some ("failed to update resource \x27" ++ resource.md.id ++ "\x27 of type \x27" ++
          resource.md.typ ++ "\x27: " ++ err.Error), st2)
      | (none, st2) => (none, st2)

/-- The method `applyYamlResource.deleteResource`; `none` is a nil error. -/
def deleteResource (flt : Faults) (st : State) (resource : Resource) : Option String × State :=
  match st.Get flt resource.md.ptr with
  | (.error err, st1) =>
    if err.IsNotFoundError then (none, st1)
    else
      (some ("failed to check resource \x27" ++ resource.md.id ++ "\x27 of type \x27" ++
        resource.md.typ ++ "\x27: " ++ err.Error), st1)
  | (.ok _, st1) =>
    match st1.Destroy flt resource.md.ptr with
    | (some err, st2) =>
      (some ("failed to delete resource \x27" ++ resource.md.id ++ "\x27 of type \x27" ++
        resource.md.typ ++ "\x27: " ++ err.Error), st2)
    | (none, st2) => (none, st2)

/-- The string `fmt.Sprintf("%s.%s", Type(), ID())` of a resource. -/
def idString (resource : Resource) : String :=
  resource.md.typ ++ "." ++ resource.md.id

/-- The loop of `Create`: process every resource in create-only mode, collecting `idArr`. -/
def createLoop (flt : Faults) :
    State → List Resource → List String → Except String (List String) × State
  | st, [], idArr => (.ok idArr, st)
  | st, resource :: rest, idArr =>
    match processResource flt st resource .ModeCreateOnly with
    | (some err, st1) => (.error err, st1)
    | (none, st1) => createLoop flt st1 rest (idArr ++ [idString resource])

/-- The method `applyYamlResource.Create`: the diagnostic of a failed call or the
`ID` put into the state, and the remote state afterwards.  A panic of the decoder ends
the call before any store call. -/
def Create (ctx : Context) (flt : Faults) (st : State) (planYaml : List Document) :
    Outcome String × State :=
  match decodeYAMLResources ctx planYaml with
  | .error d => (.error d, st)
  | .panic msg => (.panic msg, st)
  | .ok resources =>
    match createLoop flt st resources [] with
    | (.error err, st1) => (.error ⟨errCreationFailed, err⟩, st1)
    | (.ok idArr, st1) => (.ok (generateResourceId idArr), st1)

/-- The inner loop of `Update`: delete the first element of `stateResources` that
matches `resource`, if there is one. -/
def removeMatch (stateResources : List Resource) (resource : Resource) : List Resource :=
  match stateResources with
  | [] => []
  | stateResource :: rest =>
    if resourcesMatch stateResource resource then rest
    else stateResource :: removeMatch rest resource

/-- The first loop of `Update`: for every plan resource, drop its match from
`stateResources` and process it in create-or-update mode, collecting `idArr`. -/
def applyLoop (flt : Faults) :
    State → List Resource → List Resource → List String →
      Except String (List Resource × List String) × State
  | st, stateResources, [], idArr => (.ok (stateResources, idArr), st)
  | st, stateResources, resource :: rest, idArr =>
    let stateResources := removeMatch stateResources resource
    match processResource flt st resource .ModeCreateOrUpdate with
    | (some err, st1) => (.error err, st1)
    | (none, st1) => applyLoop flt st1 stateResources rest (idArr ++ [idString resource])

/-- The loop shared by `Delete` and the second half of `Update`: delete every resource,
stopping at the first error. -/
def deleteLoop (flt : Faults) : State → List Resource → Option String × State
  | st, [] => (none, st)
  | st, resource :: rest =>
    match deleteResource flt st resource with
    | (some err, st1) => (some err, st1)
    | (none, st1) => deleteLoop flt st1 rest

/-- The method `applyYamlResource.Update`. -/
def Update (ctx : Context) (flt : Faults) (st : State) (stateYaml planYaml : List Document) :
    Outcome String × State :=
  match decodeYAMLResources ctx stateYaml with
  | .error d => (.error d, st)
  | .panic msg => (.panic msg, st)
  | .ok stateResources =>
    match decodeYAMLResources ctx planYaml with
    | .error d => (.error d, st)
    | .panic msg => (.panic msg, st)
    | .ok planResources =>
      match applyLoop flt st stateResources planResources [] with
      | (.error err, st1) => (.error ⟨errUpdateFailed, err⟩, st1)
      | (.ok (stateResources, idArr), st1) =>
        match deleteLoop flt st1 stateResources with
        | (some err, st2) => (.error ⟨errDeleteFailed, err⟩, st2)
        | (none, st2) => (.ok (generateResourceId idArr), st2)

/-- The method `applyYamlResource.Delete`; `ok ()` is a call without error diagnostics. -/
def Delete (ctx : Context) (flt : Faults) (st : State) (stateYaml : List Document) :
    Outcome Unit × State :=
  match decodeYAMLResources ctx stateYaml with
  | .error d => (.error d, st)
  | .panic msg => (.panic msg, st)
  | .ok resources =>
    match deleteLoop flt st resources with
    | (some err, st1) => (.error ⟨errDeleteFailed, err⟩, st1)
    | (none, st1) => (.ok (), st1)

/-- The remote state that holds nothing and has seen no call. -/
def State.empty : State := ⟨fun _ => none, []⟩

/-- The manifest whose documents all decode, to the given resources in order. -/
def manifest (resources : List Resource) : List Document :=
  resources.map Document.resource

/-- Whether an object is stored under a pointer. -/
def State.present (st : State) (p : Pointer) : Bool := (st.objs p).isSome

/-- The kind of a call to the remote state. -/
inductive OpKind
  | get
  | create
  | update
  | destroy
  deriving DecidableEq, Repr

/-- The kind of a call and the pointer it addresses, payload left out. -/
def StoreOp.kind : StoreOp → OpKind × Pointer
  | .get p => (.get, p)
  | .create r => (.create, r.md.ptr)
  | .update r => (.update, r.md.ptr)
  | .destroy p => (.destroy, p)

/-- The calls a three-way diff expects for the new objects, given which pointers are
occupied: a read of each object, then an update if its pointer is occupied when it is
reached and a create otherwise. -/
def diffApplyOps (occupied : Pointer → Bool) : List Resource → List (OpKind × Pointer)
  | [] => []
  | r :: rest =>
    (.get, r.md.ptr) :: ((if occupied r.md.ptr then OpKind.update else OpKind.create), r.md.ptr) ::
      diffApplyOps (fun p => occupied p || decide (p = r.md.ptr)) rest

/-- The calls expected for deleting a list of objects, given which pointers are occupied:
a read of each object, and a destroy if its pointer is occupied when it is reached. -/
def diffDeleteOps (occupied : Pointer → Bool) : List Resource → List (OpKind × Pointer)
  | [] => []
  | r :: rest =>
    if occupied r.md.ptr then
      (.get, r.md.ptr) :: (.destroy, r.md.ptr) ::
        diffDeleteOps (fun p => occupied p && !decide (p = r.md.ptr)) rest
    else (.get, r.md.ptr) :: diffDeleteOps occupied rest

/-- The text of the error of create-only mode for an object that is already stored. -/
def alreadyExistsMsg (r : Resource) : String :=
  "resource \x27" ++ r.md.id ++ "\x27 of type \x27" ++ r.md.typ ++ "\x27 already exists"

/-! ## Example objects -/

def exA : Resource := ⟨⟨"default", "T", "a", none⟩, "spec-a"⟩
def exB : Resource := ⟨⟨"default", "T", "b", none⟩, "spec-b"⟩
def exC : Resource := ⟨⟨"default", "T", "c", none⟩, "spec-c"⟩

/-- The object of the single-object scenario: type `T`, id `x`, namespace `ns`. -/
def exX : Resource := ⟨⟨"ns", "T", "x", none⟩, "spec-x"⟩

/-- A remote state holding `exA` (at version 3) and `exB` (at version 7). -/
def exStoreAB : State :=
  ⟨fun p => if p = exA.md.ptr then some (exA.SetVersion (some 3))
            else if p = exB.md.ptr then some (exB.SetVersion (some 7)) else none, []⟩

/-- The object `exA` declared again with another spec: same identity, different payload. -/
def exA2 : Resource := ⟨⟨"default", "T", "a", none⟩, "spec-a2"⟩

/-- A context that is already cancelled. -/
def exCancelled : Context := ⟨some "context canceled"⟩

/-- A failure schedule under which the fourth call issued (call number 3) fails. -/
def exFaultFourthCall : Faults :=
  fun n _ => if n = 3 then some (.failure "connection refused") else none

/-! ## Error texts of `processResource` -/

/-- The text of the error for a failed read of an object. -/
def checkFailedMsg (r : Resource) (err : StoreErr) : String :=
  "failed to check resource \x27" ++ r.md.id ++ "\x27 of type \x27" ++ r.md.typ ++ "\x27: " ++
    err.Error

/-- The text of the error for a failed create of an object. -/
def createFailedMsg (r : Resource) (err : StoreErr) : String :=
  "failed to create resource \x27" ++ r.md.id ++ "\x27 of type \x27" ++ r.md.typ ++ "\x27: " ++
    err.Error

/-- The text of the error for a failed update of an object. -/
def updateFailedMsg (r : Resource) (err : StoreErr) : String :=
  "failed to update resource \x27" ++ r.md.id ++ "\x27 of type \x27" ++ r.md.typ ++ "\x27: " ++
    err.Error

/-! ## The provider (`internal/omni/provider.go`) -/

/-- The resource constructors of the package: `NewApplyYamlResource` is the only one. -/
inductive ResourceConstructor
  | NewApplyYamlResource
  deriving DecidableEq, Repr

/-- The data source constructors of the package. -/
inductive DataSourceConstructor
  | NewMachinesDataSource
  | NewInstallationMediaDataSource
  deriving DecidableEq, Repr

/-- The method `omniProvider.Metadata`: the provider type name it reports. -/
def omniProvider.Metadata : String := "omni"

/-- The method `omniProvider.Resources`: the source returns the empty slice. -/
def omniProvider.Resources : List ResourceConstructor := []

/-- The method `omniProvider.DataSources`. -/
def omniProvider.DataSources : List DataSourceConstructor :=
  [.NewMachinesDataSource, .NewInstallationMediaDataSource]

/-- The method `applyYamlResource.Metadata`: the type name for a provider type name. -/
def applyYamlResource.Metadata (providerTypeName : String) : String :=
  providerTypeName ++ "_apply_yaml"

/-- The type name reported by the resource a constructor builds. -/
def ResourceConstructor.TypeName : ResourceConstructor → String → String
  | .NewApplyYamlResource, providerTypeName => applyYamlResource.Metadata providerTypeName

/-- The type name reported by the data source a constructor builds
(`machinesDataSource.Metadata`, `installationMediaDataSource.Metadata`). -/
def DataSourceConstructor.TypeName : DataSourceConstructor → String → String
  | .NewMachinesDataSource, providerTypeName => providerTypeName ++ "_machines"
  | .NewInstallationMediaDataSource, providerTypeName => providerTypeName ++ "_installation_media"

/-- The resource type names the plugin framework serves for the provider: the type name
of every constructor that `Resources` returns. -/
def servedResourceTypes : List String :=
  omniProvider.Resources.map (fun c => c.TypeName omniProvider.Metadata)

/-- The data source type names the plugin framework serves for the provider. -/
def servedDataSourceTypes : List String :=
  omniProvider.DataSources.map (fun c => c.TypeName omniProvider.Metadata)

/-! ## Lemmas on the remote state without injected failures -/

theorem resourcesMatch_iff_ptr (a b : Resource) :
    resourcesMatch a b = true ↔ a.md.ptr = b.md.ptr := by
  simp only [resourcesMatch, Metadata.ptr, Bool.and_eq_true, beq_iff_eq, Pointer.mk.injEq]
  tauto

theorem resourcesMatch_false_iff_ptr (a b : Resource) :
    resourcesMatch a b = false ↔ a.md.ptr ≠ b.md.ptr := by
  rw [Ne, ← resourcesMatch_iff_ptr]; simp

@[simp] theorem SetVersion_ptr (r : Resource) (v : Version) : (r.SetVersion v).md.ptr = r.md.ptr :=
  rfl

@[simp] theorem SetVersion_version (r : Resource) (v : Version) :
    (r.SetVersion v).md.version = v := rfl

theorem processResource_absent (st : State) (r : Resource) (mode : ResourceOperationMode)
    (h : st.objs r.md.ptr = none) :
    processResource noFaults st r mode =
      (none, ⟨fun p => if p = r.md.ptr then some r else st.objs p,
              st.log ++ [.get r.md.ptr, .create r]⟩) := by
  simp [processResource, State.Get, State.Create, State.record, noFaults, h,
    StoreErr.IsNotFoundError]

theorem processResource_present_update (st : State) (r cur : Resource)
    (h : st.objs r.md.ptr = some cur) :
    processResource noFaults st r .ModeCreateOrUpdate =
      (none, ⟨fun p => if p = r.md.ptr then
                some ((r.SetVersion cur.md.version).SetVersion cur.md.version.Next)
              else st.objs p,
              st.log ++ [.get r.md.ptr, .update (r.SetVersion cur.md.version)]⟩) := by
  simp [processResource, State.Get, State.Update, State.record, noFaults, h]

theorem processResource_present_createOnly (st : State) (r cur : Resource)
    (h : st.objs r.md.ptr = some cur) :
    processResource noFaults st r .ModeCreateOnly =
      (some (alreadyExistsMsg r), st.record (.get r.md.ptr)) := by
  simp [processResource, State.Get, State.record, noFaults, h, alreadyExistsMsg]

theorem deleteResource_absent (st : State) (r : Resource) (h : st.objs r.md.ptr = none) :
    deleteResource noFaults st r = (none, st.record (.get r.md.ptr)) := by
  simp [deleteResource, State.Get, State.record, noFaults, h, StoreErr.IsNotFoundError]

theorem deleteResource_present (st : State) (r cur : Resource)
    (h : st.objs r.md.ptr = some cur) :
    deleteResource noFaults st r =
      (none, ⟨fun p => if p = r.md.ptr then none else st.objs p,
              st.log ++ [.get r.md.ptr, .destroy r.md.ptr]⟩) := by
  simp [deleteResource, State.Get, State.Destroy, State.record, noFaults, h]

theorem decodeLoop_manifest (rs acc : List Resource) (v : Option Resource) :
    decodeLoop .Background (manifest rs) v acc = .ok (acc ++ rs) := by
  induction rs generalizing acc v with
  | nil => simp [manifest, decodeLoop, Context.Background]
  | cons r rest ih =>
    have := ih (acc ++ [r]) (some r)
    simp only [manifest, List.map_cons] at this ⊢
    simp [decodeLoop, Context.Background] at this ⊢
    simpa using this

theorem decode_manifest (rs : List Resource) :
    decodeYAMLResources .Background (manifest rs) = .ok rs := by
  simp [decodeYAMLResources, decodeLoop_manifest]

theorem processResource_update_noFaults (st : State) (r : Resource) :
    ∃ st1, processResource noFaults st r .ModeCreateOrUpdate = (none, st1) ∧
      st1.log.map StoreOp.kind = st.log.map StoreOp.kind ++
        [(.get, r.md.ptr), ((if st.present r.md.ptr then OpKind.update else OpKind.create), r.md.ptr)] ∧
      (∀ p, st1.present p = (st.present p || decide (p = r.md.ptr))) := by
  cases h : st.objs r.md.ptr with
  | none =>
    refine ⟨_, processResource_absent st r _ h, ?_, ?_⟩
    · simp [State.present, h, StoreOp.kind]
    · intro p
      by_cases hp : p = r.md.ptr <;> simp [State.present, hp]
  | some cur =>
    refine ⟨_, processResource_present_update st r cur h, ?_, ?_⟩
    · simp [State.present, h, StoreOp.kind]
    · intro p
      by_cases hp : p = r.md.ptr <;> simp [State.present, hp]

theorem deleteResource_noFaults (st : State) (r : Resource) :
    ∃ st1, deleteResource noFaults st r = (none, st1) ∧
      st1.log.map StoreOp.kind = st.log.map StoreOp.kind ++
        (if st.present r.md.ptr then [(.get, r.md.ptr), (.destroy, r.md.ptr)]
         else [(.get, r.md.ptr)]) ∧
      (∀ p, st1.objs p = if p = r.md.ptr then none else st.objs p) := by
  cases h : st.objs r.md.ptr with
  | none =>
    refine ⟨_, deleteResource_absent st r h, ?_, ?_⟩
    · simp [State.present, h, StoreOp.kind, State.record]
    · intro p
      by_cases hp : p = r.md.ptr
      · simp [State.record, hp, h]
      · simp [State.record, hp]
  | some cur =>
    refine ⟨_, deleteResource_present st r cur h, ?_, ?_⟩
    · simp [State.present, h, StoreOp.kind]
    · intro p; rfl

theorem applyLoop_noFaults (new : List Resource) :
    ∀ (st : State) (cands : List Resource) (idArr : List String),
      ∃ st1, applyLoop noFaults st cands new idArr =
          (.ok (new.foldl removeMatch cands, idArr ++ new.map idString), st1) ∧
        st1.log.map StoreOp.kind = st.log.map StoreOp.kind ++ diffApplyOps st.present new ∧
        (∀ p, st1.present p = (st.present p || new.any (fun r => decide (r.md.ptr = p)))) := by
  induction new with
  | nil => intro st cands idArr; exact ⟨st, by simp [applyLoop, diffApplyOps]⟩
  | cons r rest ih =>
    intro st cands idArr
    obtain ⟨st1, h1, hlog1, hpres1⟩ := processResource_update_noFaults st r
    obtain ⟨st2, h2, hlog2, hpres2⟩ := ih st1 (removeMatch cands r) (idArr ++ [idString r])
    have hfun : st1.present = fun p => st.present p || decide (p = r.md.ptr) := funext hpres1
    refine ⟨st2, ?_, ?_, ?_⟩
    · simp [applyLoop, h1, h2]
    · rw [hlog2, hlog1, hfun]; simp [diffApplyOps]
    · intro p
      rw [hpres2, hpres1]
      simp only [List.any_cons, Bool.or_assoc]
      congr 2
      exact Bool.eq_iff_iff.mpr (by simp [eq_comm])

theorem deleteLoop_noFaults (rs : List Resource) :
    ∀ st : State, ∃ st1, deleteLoop noFaults st rs = (none, st1) ∧
      st1.log.map StoreOp.kind = st.log.map StoreOp.kind ++ diffDeleteOps st.present rs ∧
      (∀ p, st1.objs p = if rs.any (fun r => decide (r.md.ptr = p)) then none else st.objs p) := by
  induction rs with
  | nil => intro st; exact ⟨st, by simp [deleteLoop, diffDeleteOps]⟩
  | cons r rest ih =>
    intro st
    obtain ⟨st1, h1, hlog1, hobj1⟩ := deleteResource_noFaults st r
    obtain ⟨st2, h2, hlog2, hobj2⟩ := ih st1
    refine ⟨st2, ?_, ?_, ?_⟩
    · simp [deleteLoop, h1, h2]
    · rw [hlog2, hlog1]
      by_cases hp : st.present r.md.ptr = true
      · have hfun : st1.present = fun p => st.present p && !decide (p = r.md.ptr) := by
          funext p
          by_cases hq : p = r.md.ptr <;> simp [State.present, hobj1, hq]
        simp [diffDeleteOps, hp, hfun]
      · have hfun : st1.present = st.present := by
          funext p
          by_cases hq : p = r.md.ptr
          · subst hq
            simp only [Bool.not_eq_true] at hp
            simp [State.present, hobj1] at hp ⊢
            simpa [State.present] using hp
          · simp [State.present, hobj1, hq]
        simp [diffDeleteOps, hp, hfun]
    · intro p
      rw [hobj2, hobj1]
      by_cases hq : p = r.md.ptr
      · subst hq; simp
      · have : ¬ r.md.ptr = p := fun h => hq h.symm
        simp [hq, this]

theorem diffDeleteOps_absent (occupied : Pointer → Bool) (rs : List Resource)
    (h : ∀ r ∈ rs, occupied r.md.ptr = false) :
    diffDeleteOps occupied rs = rs.map (fun r => (OpKind.get, r.md.ptr)) := by
  induction rs with
  | nil => rfl
  | cons r rest ih =>
    have h0 := h r (List.mem_cons_self _ _)
    simp [diffDeleteOps, h0, ih (fun x hx => h x (List.mem_cons_of_mem _ hx))]

theorem removeMatch_eq_filter (cands : List Resource) (r : Resource)
    (hd : cands.Pairwise (fun a b => resourcesMatch a b = false)) :
    removeMatch cands r = cands.filter (fun s => !resourcesMatch s r) := by
  induction cands with
  | nil => rfl
  | cons s rest ih =>
    rw [List.pairwise_cons] at hd
    by_cases hm : resourcesMatch s r = true
    · have hrest : ∀ x ∈ rest, (!resourcesMatch x r) = true := by
        intro x hx
        have h1 := (resourcesMatch_false_iff_ptr s x).mp (hd.1 x hx)
        have h2 := (resourcesMatch_iff_ptr s r).mp hm
        have h3 : resourcesMatch x r = false :=
          (resourcesMatch_false_iff_ptr x r).mpr (fun h => h1 (h2.trans h.symm))
        simp [h3]
      simp [removeMatch, hm, List.filter_eq_self.mpr hrest]
    · simp only [Bool.not_eq_true] at hm
      simp [removeMatch, hm, ih hd.2]

theorem foldl_removeMatch_eq_filter (new : List Resource) :
    ∀ cands : List Resource, cands.Pairwise (fun a b => resourcesMatch a b = false) →
      new.foldl removeMatch cands =
        cands.filter (fun s => !new.any (fun n => resourcesMatch s n)) := by
  induction new with
  | nil => intro cands _; simp
  | cons r rest ih =>
    intro cands hd
    rw [List.foldl_cons, removeMatch_eq_filter cands r hd, ih _ (hd.filter _), List.filter_filter]
    congr 1
    funext s
    simp [Bool.and_comm]

theorem diffDeleteOps_congr (rs : List Resource) :
    ∀ occ occ2 : Pointer → Bool, (∀ r ∈ rs, occ r.md.ptr = occ2 r.md.ptr) →
      diffDeleteOps occ rs = diffDeleteOps occ2 rs := by
  induction rs with
  | nil => intro _ _ _; rfl
  | cons r rest ih =>
    intro occ occ2 h
    have h0 := h r (List.mem_cons_self _ _)
    have hr : ∀ x ∈ rest, occ x.md.ptr = occ2 x.md.ptr :=
      fun x hx => h x (List.mem_cons_of_mem _ hx)
    simp only [diffDeleteOps, ← h0]
    split
    · rw [ih (fun p => occ p && !decide (p = r.md.ptr)) (fun p => occ2 p && !decide (p = r.md.ptr))
        (fun x hx => by simp [hr x hx])]
    · rw [ih occ occ2 hr]

theorem diffDeleteOps_distinct (rs : List Resource) (occ : Pointer → Bool)
    (hd : rs.Pairwise (fun a b => resourcesMatch a b = false)) :
    diffDeleteOps occ rs = rs.flatMap (fun s =>
      if occ s.md.ptr then [(OpKind.get, s.md.ptr), (OpKind.destroy, s.md.ptr)]
      else [(OpKind.get, s.md.ptr)]) := by
  induction rs with
  | nil => rfl
  | cons r rest ih =>
    rw [List.pairwise_cons] at hd
    have hne : ∀ x ∈ rest, (occ x.md.ptr && !decide (x.md.ptr = r.md.ptr)) = occ x.md.ptr := by
      intro x hx
      have h1 := (resourcesMatch_false_iff_ptr r x).mp (hd.1 x hx)
      have h2 : ¬ x.md.ptr = r.md.ptr := fun h => h1 h.symm
      simp [h2]
    simp only [diffDeleteOps, List.flatMap_cons]
    split
    · rw [diffDeleteOps_congr rest _ occ hne, ih hd.2]; rfl
    · rw [ih hd.2]; rfl

theorem Update_noFaults (st : State) (prev new : List Resource) :
    ∃ st2, Update .Background noFaults st (manifest prev) (manifest new) =
        (.ok (generateResourceId (new.map idString)), st2) ∧
      st2.log.map StoreOp.kind = st.log.map StoreOp.kind ++ diffApplyOps st.present new ++
        diffDeleteOps (fun p => st.present p || new.any (fun r => decide (r.md.ptr = p)))
          (new.foldl removeMatch prev) ∧
      (∀ p, st2.present p =
        (!(new.foldl removeMatch prev).any (fun r => decide (r.md.ptr = p)) &&
          (st.present p || new.any (fun r => decide (r.md.ptr = p))))) := by
  obtain ⟨st1, h1, hlog1, hpres1⟩ := applyLoop_noFaults new st prev []
  obtain ⟨st2, h2, hlog2, hobj2⟩ := deleteLoop_noFaults (new.foldl removeMatch prev) st1
  have hfun : st1.present = fun p => st.present p || new.any (fun r => decide (r.md.ptr = p)) :=
    funext hpres1
  refine ⟨st2, ?_, ?_, ?_⟩
  · simp only [List.nil_append] at h1
    simp [Update, decode_manifest, h1, h2]
  · rw [hlog2, hlog1, hfun]
  · intro p
    rw [← hpres1 p]
    cases hc : (new.foldl removeMatch prev).any (fun r => decide (r.md.ptr = p)) <;>
      simp [State.present, hobj2 p, hc]

/-- C1. Create-or-update convergence is a three-way diff.  With a previous set of
pairwise-distinct identities, any new set and no failing store call, `Update` succeeds;
the calls it issues are, for each new object in order, a read followed by an update when
the identity is stored at that moment and by a create when it is not, and then, for each
previous object matching no new object, a read followed by a destroy when it is stored;
afterwards the stored identities are the initial ones minus those of previous objects
matching no new object, plus those of the new objects.  With previous `[A, B]`, new
`[B, C]` and a store holding `A` and `B` but not `C`: `B` is updated, `C` is created and
`A` is destroyed. -/
theorem Update_three_way_diff :
    (∀ (st : State) (prev new : List Resource),
      prev.Pairwise (fun a b => resourcesMatch a b = false) →
      ∃ st2, Update .Background noFaults st (manifest prev) (manifest new) =
          (.ok (generateResourceId (new.map idString)), st2) ∧
        st2.log.map StoreOp.kind = st.log.map StoreOp.kind ++ diffApplyOps st.present new ++
          (prev.filter (fun s => !new.any (fun n => resourcesMatch s n))).flatMap (fun s =>
            if st.present s.md.ptr then [(OpKind.get, s.md.ptr), (OpKind.destroy, s.md.ptr)]
            else [(OpKind.get, s.md.ptr)]) ∧
        (∀ p, st2.present p = true ↔
          (st.present p = true ∧
            ¬ ∃ s ∈ prev, s.md.ptr = p ∧ ∀ n ∈ new, resourcesMatch s n = false) ∨
          ∃ n ∈ new, n.md.ptr = p)) ∧
    (∀ (st : State) (A B C : Resource),
      resourcesMatch A B = false → resourcesMatch A C = false → resourcesMatch B C = false →
      st.present A.md.ptr = true → st.present B.md.ptr = true → st.present C.md.ptr = false →
      ∃ st2, Update .Background noFaults st (manifest [A, B]) (manifest [B, C]) =
          (.ok (generateResourceId [idString B, idString C]), st2) ∧
        st2.log.map StoreOp.kind = st.log.map StoreOp.kind ++
          [(.get, B.md.ptr), (.update, B.md.ptr), (.get, C.md.ptr), (.create, C.md.ptr),
           (.get, A.md.ptr), (.destroy, A.md.ptr)] ∧
        st2.present A.md.ptr = false ∧ st2.present B.md.ptr = true ∧
        st2.present C.md.ptr = true) := by
  have general : ∀ (st : State) (prev new : List Resource),
      prev.Pairwise (fun a b => resourcesMatch a b = false) →
      ∃ st2, Update .Background noFaults st (manifest prev) (manifest new) =
          (.ok (generateResourceId (new.map idString)), st2) ∧
        st2.log.map StoreOp.kind = st.log.map StoreOp.kind ++ diffApplyOps st.present new ++
          (prev.filter (fun s => !new.any (fun n => resourcesMatch s n))).flatMap (fun s =>
            if st.present s.md.ptr then [(OpKind.get, s.md.ptr), (OpKind.destroy, s.md.ptr)]
            else [(OpKind.get, s.md.ptr)]) ∧
        (∀ p, st2.present p = true ↔
          (st.present p = true ∧
            ¬ ∃ s ∈ prev, s.md.ptr = p ∧ ∀ n ∈ new, resourcesMatch s n = false) ∨
          ∃ n ∈ new, n.md.ptr = p) := by
    intro st prev new hd
    obtain ⟨st2, hres, hlog, hpres⟩ := Update_noFaults st prev new
    have hc := foldl_removeMatch_eq_filter new prev hd
    refine ⟨st2, hres, ?_, ?_⟩
    · rw [hlog, hc, diffDeleteOps_distinct _ _ (hd.filter _)]
      congr 1
      apply List.flatMap_congr
      intro s hs
      have hnone : new.any (fun r => decide (r.md.ptr = s.md.ptr)) = false := by
        rw [List.mem_filter] at hs
        have h2 := hs.2
        simp only [Bool.not_eq_true', List.any_eq_false] at h2
        rw [List.any_eq_false]
        intro n hn
        have h3 := (resourcesMatch_false_iff_ptr s n).mp (by simpa using h2 n hn)
        simpa using fun h : n.md.ptr = s.md.ptr => h3 h.symm
      simp [hnone]
    · intro p
      rw [hpres p, hc]
      simp only [Bool.and_eq_true, Bool.not_eq_true', Bool.or_eq_true, List.any_eq_true,
        List.any_eq_false, List.mem_filter, decide_eq_true_eq]
      constructor
      · rintro ⟨hno, hor⟩
        rcases hor with h | h
        · by_cases hn : ∃ n ∈ new, n.md.ptr = p
          · exact Or.inr hn
          · refine Or.inl ⟨h, ?_⟩
            rintro ⟨s, hs, hsp, hall⟩
            refine hno s ⟨hs, ?_⟩ (by simpa using hsp)
            intro n hn2
            simpa using hall n hn2
        · exact Or.inr h
      · rintro (⟨h, hno⟩ | h)
        · refine ⟨?_, Or.inl h⟩
          intro s hs
          intro hsp
          exact hno ⟨s, hs.1, hsp, fun n hn => by simpa using hs.2 n hn⟩
        · refine ⟨?_, Or.inr h⟩
          intro s hs
          intro hsp
          obtain ⟨n, hn, hnp⟩ := h
          have h1 : resourcesMatch s n = false := by simpa using hs.2 n hn
          exact (resourcesMatch_false_iff_ptr s n).mp h1 (hsp.trans hnp.symm)
  refine ⟨general, ?_⟩
  intro st A B C hAB hAC hBC hA hB hC
  have hd : [A, B].Pairwise (fun a b => resourcesMatch a b = false) := by
    simp [hAB]
  obtain ⟨st2, hres, hlog, hpres⟩ := general st [A, B] [B, C] hd
  have pAB := (resourcesMatch_false_iff_ptr A B).mp hAB
  have pAC := (resourcesMatch_false_iff_ptr A C).mp hAC
  have pBC := (resourcesMatch_false_iff_ptr B C).mp hBC
  have hBB : resourcesMatch B B = true := (resourcesMatch_iff_ptr B B).mpr rfl
  have pCB : ¬ C.md.ptr = B.md.ptr := fun h => pBC h.symm
  refine ⟨st2, by simpa using hres, ?_, ?_, ?_, ?_⟩
  · rw [hlog]
    simp [diffApplyOps, hA, hB, hC, hAB, hAC, hBB, pCB]
  · rw [Bool.eq_false_iff, Ne, hpres]
    rintro (⟨_, hno⟩ | ⟨n, hn, hnp⟩)
    · apply hno
      refine ⟨A, by simp, rfl, ?_⟩
      intro n hn
      simp only [List.mem_cons, List.mem_singleton, List.not_mem_nil, or_false] at hn
      rcases hn with rfl | rfl
      · exact hAB
      · exact hAC
    · simp only [List.mem_cons, List.mem_singleton, List.not_mem_nil, or_false] at hn
      rcases hn with rfl | rfl
      · exact pAB hnp.symm
      · exact pAC hnp.symm
  · rw [hpres]; exact Or.inr ⟨B, by simp, rfl⟩
  · rw [hpres]; exact Or.inr ⟨C, by simp, rfl⟩

/-- Witness for C1 on the example objects: previous `[exA, exB]`, new `[exB, exC]`, and a
store holding `exA` and `exB`. -/
theorem Update_three_way_diff_witness :
    [exA, exB].Pairwise (fun a b => resourcesMatch a b = false) ∧
    (∃ st2, Update .Background noFaults exStoreAB (manifest [exA, exB]) (manifest [exB, exC]) =
        (.ok (generateResourceId [idString exB, idString exC]), st2) ∧
      st2.log.map StoreOp.kind = exStoreAB.log.map StoreOp.kind ++
        [(.get, exB.md.ptr), (.update, exB.md.ptr), (.get, exC.md.ptr), (.create, exC.md.ptr),
         (.get, exA.md.ptr), (.destroy, exA.md.ptr)] ∧
      st2.present exA.md.ptr = false ∧ st2.present exB.md.ptr = true ∧
      st2.present exC.md.ptr = true) ∧
    (Update .Background noFaults exStoreAB (manifest [exA, exB]) (manifest [exB, exC])).2.log =
      [.get exB.md.ptr, .update (exB.SetVersion (some 7)), .get exC.md.ptr, .create exC,
       .get exA.md.ptr, .destroy exA.md.ptr] :=
  ⟨by decide,
   Update_three_way_diff.2 exStoreAB exA exB exC (by decide) (by decide) (by decide)
     (by decide) (by decide) (by decide),
   by decide⟩

theorem applyLoop_ids (flt : Faults) (new : List Resource) :
    ∀ (st : State) (cands : List Resource) (idArr : List String) (out : List Resource)
      (ids : List String) (st1 : State),
      applyLoop flt st cands new idArr = (.ok (out, ids), st1) →
        ids = idArr ++ new.map idString := by
  induction new with
  | nil =>
    intro st cands idArr out ids st1 h
    simp only [applyLoop, Prod.mk.injEq, Except.ok.injEq] at h
    simp [h.1.2]
  | cons r rest ih =>
    intro st cands idArr out ids st1 h
    simp only [applyLoop] at h
    split at h
    · simp at h
    · rw [ih _ _ _ _ _ _ h]; simp

theorem decodeLoop_cancelled (ctx : Context) (e : String) (hc : ctx.err = some e)
    (docs : List Document) (v : Option Resource) (acc : List Resource) :
    decodeLoop ctx docs v acc = .error ⟨errContextError, "Operation cancelled: " ++ e⟩ := by
  cases docs <;> simp [decodeLoop, hc]

theorem decode_manifest_ok (ctx : Context) (rs out : List Resource)
    (h : decodeYAMLResources ctx (manifest rs) = .ok out) : out = rs := by
  cases hc : ctx.err with
  | some e =>
    rw [decodeYAMLResources, decodeLoop_cancelled ctx e hc] at h
    simp at h
  | none =>
    have hb : ctx = .Background := by
      cases ctx; simp only [Context.Background] at *; simp [hc]
    rw [hb, decode_manifest] at h
    simpa using h.symm

/-- C2. Whenever `Update` succeeds, the ID it returns is `generateResourceId` of the
`<type>.<id>` strings of the resources decoded from the plan manifest, in that order; it
does not depend on the previous manifest, on the store or on the calls issued. -/
theorem Update_id_is_plan_digest :
    (∀ (ctx : Context) (flt : Faults) (st st2 : State) (stateYaml planYaml : List Document)
      (id : String), Update ctx flt st stateYaml planYaml = (.ok id, st2) →
      ∃ planResources, decodeYAMLResources ctx planYaml = .ok planResources ∧
        id = generateResourceId (planResources.map idString)) ∧
    (∀ (ctx : Context) (flt : Faults) (st st2 : State) (stateYaml : List Document)
      (new : List Resource) (id : String),
      Update ctx flt st stateYaml (manifest new) = (.ok id, st2) →
      id = generateResourceId (new.map idString)) := by
  have general : ∀ (ctx : Context) (flt : Faults) (st st2 : State)
      (stateYaml planYaml : List Document) (id : String),
      Update ctx flt st stateYaml planYaml = (.ok id, st2) →
      ∃ planResources, decodeYAMLResources ctx planYaml = .ok planResources ∧
        id = generateResourceId (planResources.map idString) := by
    intro ctx flt st st2 stateYaml planYaml id h
    unfold Update at h
    split at h
    · simp at h
    · simp at h
    · rename_i stateResources _
      split at h
      · simp at h
      · simp at h
      · rename_i planResources hplan
        refine ⟨planResources, hplan, ?_⟩
        split at h
        · simp at h
        · rename_i out idArr st1 happly
          have hids := applyLoop_ids flt planResources st stateResources [] out idArr st1 happly
          split at h
          · simp at h
          · simp only [Prod.mk.injEq, Outcome.ok.injEq] at h
            rw [← h.1, hids]; simp
  refine ⟨general, ?_⟩
  intro ctx flt st st2 stateYaml new id h
  obtain ⟨planResources, hdec, hid⟩ := general ctx flt st st2 stateYaml (manifest new) id h
  rw [hid, decode_manifest_ok ctx new planResources hdec]

/-- Witness for C2: the update of the example store from `[exA, exB]` to `[exB, exC]`
succeeds and returns the digest of `["T.b", "T.c"]`. -/
theorem Update_id_is_plan_digest_witness :
    (Update .Background noFaults exStoreAB (manifest [exA, exB]) (manifest [exB, exC])).1 =
      .ok "fc18a4b585b4ea1374c114832461794e720efcf048db4a522cc67e00f628e518" ∧
    "fc18a4b585b4ea1374c114832461794e720efcf048db4a522cc67e00f628e518" =
      generateResourceId ([exB, exC].map idString) ∧
    [exB, exC].map idString = ["T.b", "T.c"] :=
  ⟨by rfl,
   Update_id_is_plan_digest.2 .Background noFaults exStoreAB
     (Update .Background noFaults exStoreAB (manifest [exA, exB]) (manifest [exB, exC])).2
     (manifest [exA, exB]) [exB, exC] _ (Prod.ext (by rfl) rfl),
   by decide⟩

theorem createLoop_fresh (rs : List Resource) :
    ∀ (st : State) (idArr : List String),
      rs.Pairwise (fun a b => resourcesMatch a b = false) →
      (∀ r ∈ rs, st.objs r.md.ptr = none) →
      ∃ st1, createLoop noFaults st rs idArr = (.ok (idArr ++ rs.map idString), st1) ∧
        st1.log = st.log ++ rs.flatMap (fun r => [.get r.md.ptr, .create r]) ∧
        (∀ r ∈ rs, st1.objs r.md.ptr = some r) ∧
        (∀ p, (∀ r ∈ rs, r.md.ptr ≠ p) → st1.objs p = st.objs p) := by
  induction rs with
  | nil => intro st idArr _ _; exact ⟨st, by simp [createLoop]⟩
  | cons r rest ih =>
    intro st idArr hd ha
    rw [List.pairwise_cons] at hd
    have hr := processResource_absent st r .ModeCreateOnly (ha r (List.mem_cons_self _ _))
    have hne : ∀ x ∈ rest, x.md.ptr ≠ r.md.ptr := fun x hx h =>
      (resourcesMatch_false_iff_ptr r x).mp (hd.1 x hx) h.symm
    obtain ⟨st2, h2, hlog2, hin2, hout2⟩ := ih
      ⟨fun p => if p = r.md.ptr then some r else st.objs p, st.log ++ [.get r.md.ptr, .create r]⟩
      (idArr ++ [idString r]) hd.2
      (fun x hx => by simp [hne x hx, ha x (List.mem_cons_of_mem _ hx)])
    refine ⟨st2, ?_, ?_, ?_, ?_⟩
    · simp [createLoop, hr, h2]
    · simp [hlog2]
    · intro x hx
      rcases List.mem_cons.mp hx with rfl | hx
      · rw [hout2 _ hne]; simp
      · exact hin2 x hx
    · intro p hp
      rw [hout2 p (fun x hx => hp x (List.mem_cons_of_mem _ hx))]
      have : ¬ p = r.md.ptr := fun h => hp r (List.mem_cons_self _ _) h.symm
      simp [this]

/-- C3. Create-only convergence on a store holding none of the manifest's identities, for
a manifest of pairwise-distinct identities and no failing store call: `Create` succeeds,
issues for every object in document order one read and one create with the decoded
object as payload, and nothing else, leaves every object stored, and returns
`generateResourceId` of the `<type>.<id>` strings in document order; for a single object
of type `T` and id `x` that is the digest of `[T ++ "." ++ x]`. -/
theorem Create_fresh_store :
    (∀ (st : State) (rs : List Resource),
      rs.Pairwise (fun a b => resourcesMatch a b = false) →
      (∀ r ∈ rs, st.objs r.md.ptr = none) →
      ∃ st1, Create .Background noFaults st (manifest rs) =
          (.ok (generateResourceId (rs.map idString)), st1) ∧
        st1.log = st.log ++ rs.flatMap (fun r => [.get r.md.ptr, .create r]) ∧
        (∀ r ∈ rs, st1.objs r.md.ptr = some r) ∧
        (∀ p, (∀ r ∈ rs, r.md.ptr ≠ p) → st1.objs p = st.objs p)) ∧
    (∀ (st : State) (r : Resource), st.objs r.md.ptr = none →
      (Create .Background noFaults st (manifest [r])).1 =
        .ok (generateResourceId [r.md.typ ++ "." ++ r.md.id])) := by
  have general : ∀ (st : State) (rs : List Resource),
      rs.Pairwise (fun a b => resourcesMatch a b = false) →
      (∀ r ∈ rs, st.objs r.md.ptr = none) →
      ∃ st1, Create .Background noFaults st (manifest rs) =
          (.ok (generateResourceId (rs.map idString)), st1) ∧
        st1.log = st.log ++ rs.flatMap (fun r => [.get r.md.ptr, .create r]) ∧
        (∀ r ∈ rs, st1.objs r.md.ptr = some r) ∧
        (∀ p, (∀ r ∈ rs, r.md.ptr ≠ p) → st1.objs p = st.objs p) := by
    intro st rs hd ha
    obtain ⟨st1, h1, hrest⟩ := createLoop_fresh rs st [] hd ha
    simp only [List.nil_append] at h1
    exact ⟨st1, by simp [Create, decode_manifest, h1], hrest⟩
  refine ⟨general, ?_⟩
  intro st r ha
  obtain ⟨st1, h1, _⟩ := general st [r] (by simp) (by simpa using ha)
  rw [h1]
  rfl

/-- Witness for C3: the single-object scenario (type `T`, id `x`, namespace `ns`) on the
empty store. -/
theorem Create_fresh_store_witness :
    [exX].Pairwise (fun a b => resourcesMatch a b = false) ∧
    (∀ r ∈ [exX], State.empty.objs r.md.ptr = none) ∧
    (∃ st1, Create .Background noFaults .empty (manifest [exX]) =
        (.ok (generateResourceId ([exX].map idString)), st1) ∧
      st1.log = State.empty.log ++ [exX].flatMap (fun r => [.get r.md.ptr, .create r]) ∧
      (∀ r ∈ [exX], st1.objs r.md.ptr = some r) ∧
      (∀ p, (∀ r ∈ [exX], r.md.ptr ≠ p) → st1.objs p = State.empty.objs p)) ∧
    (Create .Background noFaults .empty (manifest [exX])).1 =
      .ok (generateResourceId ["T" ++ "." ++ "x"]) ∧
    generateResourceId ["T.x"] =
      "2f8927a1ca9530fb845ce5144d16937dfdaf5c57d108914f3228809db9f3e36a" :=
  ⟨by decide, by decide,
   Create_fresh_store.1 .empty [exX] (by decide) (by decide),
   Create_fresh_store.2 .empty exX rfl,
   by rfl⟩

theorem createLoop_append (flt : Faults) (pre : List Resource) :
    ∀ (st : State) (rest : List Resource) (idArr : List String),
      createLoop flt st (pre ++ rest) idArr =
        match createLoop flt st pre idArr with
        | (.error err, st1) => (.error err, st1)
        | (.ok ids, st1) => createLoop flt st1 rest ids := by
  induction pre with
  | nil => intro st rest idArr; simp [createLoop]
  | cons r pre ih =>
    intro st rest idArr
    simp only [List.cons_append, createLoop]
    split
    · rfl
    · exact ih _ _ _

theorem createLoop_keeps_present (rs : List Resource) :
    ∀ (st : State) (idArr : List String) (p : Pointer), st.present p = true →
      (createLoop noFaults st rs idArr).2.present p = true := by
  induction rs with
  | nil => intro st idArr p h; simpa [createLoop] using h
  | cons r rest ih =>
    intro st idArr p h
    cases hr : st.objs r.md.ptr with
    | none =>
      simp only [createLoop, processResource_absent st r _ hr]
      apply ih
      by_cases hp : p = r.md.ptr
      · simp [State.present, hp]
      · simpa [State.present, hp] using h
    | some cur =>
      simp only [createLoop, processResource_present_createOnly st r cur hr]
      simpa [State.present, State.record] using h

theorem createLoop_head_present (st : State) (r : Resource) (rest : List Resource)
    (idArr : List String) :
    (createLoop noFaults st (r :: rest) idArr).2.present r.md.ptr = true := by
  cases hr : st.objs r.md.ptr with
  | none =>
    simp only [createLoop, processResource_absent st r _ hr]
    apply createLoop_keeps_present
    simp [State.present]
  | some cur =>
    simp only [createLoop, processResource_present_createOnly st r cur hr]
    simp [State.present, State.record, hr]

theorem Create_snd (st : State) (rs : List Resource) :
    (Create .Background noFaults st (manifest rs)).2 = (createLoop noFaults st rs []).2 := by
  simp only [Create, decode_manifest]
  split <;> simp_all

theorem Create_present_head (st : State) (r cur : Resource) (rest : List Resource)
    (h : st.objs r.md.ptr = some cur) :
    Create .Background noFaults st (manifest (r :: rest)) =
      (.error ⟨errCreationFailed, alreadyExistsMsg r⟩, st.record (.get r.md.ptr)) := by
  simp [Create, decode_manifest, createLoop, processResource_present_createOnly st r cur h]

/-- C4. Create-only convergence is fail-fast without rollback (no failing store call).
If the objects before index `k` have pairwise-distinct identities that the store does not
hold, and the identity of object `k` is found when it is read (it is in the store, or an
earlier object of the manifest has it), then `Create` fails with the already-exists error
naming the id and type of object `k` and returns no ID; the calls issued are a read and a
create for each earlier object and one read for object `k`, nothing for the objects after
it, and the earlier objects remain stored.  In particular a second `Create` after a
successful one fails on the first object, issuing one read and no create. -/
theorem Create_fail_fast :
    (∀ (st : State) (pre : List Resource) (r : Resource) (post : List Resource),
      pre.Pairwise (fun a b => resourcesMatch a b = false) →
      (∀ x ∈ pre, st.objs x.md.ptr = none) →
      (st.present r.md.ptr = true ∨ ∃ x ∈ pre, resourcesMatch x r = true) →
      ∃ st1, Create .Background noFaults st (manifest (pre ++ r :: post)) =
          (.error ⟨errCreationFailed, alreadyExistsMsg r⟩, st1) ∧
        st1.log = st.log ++ pre.flatMap (fun x => [.get x.md.ptr, .create x]) ++
          [.get r.md.ptr] ∧
        (∀ x ∈ pre, st1.objs x.md.ptr = some x) ∧
        (∀ p, (∀ x ∈ pre, x.md.ptr ≠ p) → st1.objs p = st.objs p)) ∧
    (∀ (st st1 : State) (r : Resource) (rest : List Resource) (id : String),
      Create .Background noFaults st (manifest (r :: rest)) = (.ok id, st1) →
      Create .Background noFaults st1 (manifest (r :: rest)) =
        (.error ⟨errCreationFailed, alreadyExistsMsg r⟩, st1.record (.get r.md.ptr))) := by
  constructor
  · intro st pre r post hd ha hfound
    obtain ⟨st1, h1, hlog1, hin1, hout1⟩ := createLoop_fresh pre st [] hd ha
    have hcur : ∃ cur, st1.objs r.md.ptr = some cur := by
      by_cases hx : ∃ x ∈ pre, resourcesMatch x r = true
      · obtain ⟨x, hx, hm⟩ := hx
        exact ⟨x, by rw [← (resourcesMatch_iff_ptr x r).mp hm]; exact hin1 x hx⟩
      · have hp : st.present r.md.ptr = true := hfound.resolve_right hx
        have hne : ∀ x ∈ pre, x.md.ptr ≠ r.md.ptr := fun x hxm h =>
          hx ⟨x, hxm, (resourcesMatch_iff_ptr x r).mpr h⟩
        rw [State.present, Option.isSome_iff_exists] at hp
        obtain ⟨cur, hcur⟩ := hp
        exact ⟨cur, by rw [hout1 _ hne]; exact hcur⟩
    obtain ⟨cur, hcur⟩ := hcur
    refine ⟨st1.record (.get r.md.ptr), ?_, ?_, ?_, ?_⟩
    · simp [Create, decode_manifest, createLoop_append, h1, createLoop,
        processResource_present_createOnly st1 r cur hcur]
    · simp [State.record, hlog1]
    · exact hin1
    · exact hout1
  · intro st st1 r rest id h
    have hst1 : st1 = (createLoop noFaults st (r :: rest) []).2 := by
      rw [← Create_snd, h]
    have hp := createLoop_head_present st r rest []
    rw [← hst1, State.present, Option.isSome_iff_exists] at hp
    obtain ⟨cur, hcur⟩ := hp
    exact Create_present_head st1 r cur rest hcur

/-- Witness for C4: on the store holding `exA` and `exB`, the manifest `[exC, exA, exB]`
creates `exC` and fails on `exA`; and `Create` of `[exX]` run twice from the empty store
fails the second time. -/
theorem Create_fail_fast_witness :
    [exC].Pairwise (fun a b => resourcesMatch a b = false) ∧
    (∀ x ∈ [exC], exStoreAB.objs x.md.ptr = none) ∧
    (∃ st1, Create .Background noFaults exStoreAB (manifest ([exC] ++ exA :: [exB])) =
        (.error ⟨errCreationFailed, alreadyExistsMsg exA⟩, st1) ∧
      st1.log = exStoreAB.log ++ [exC].flatMap (fun x => [.get x.md.ptr, .create x]) ++
        [.get exA.md.ptr] ∧
      (∀ x ∈ [exC], st1.objs x.md.ptr = some x) ∧
      (∀ p, (∀ x ∈ [exC], x.md.ptr ≠ p) → st1.objs p = exStoreAB.objs p)) ∧
    Create .Background noFaults (Create .Background noFaults .empty (manifest [exX])).2
        (manifest [exX]) =
      (.error ⟨errCreationFailed, alreadyExistsMsg exX⟩,
        (Create .Background noFaults .empty (manifest [exX])).2.record (.get exX.md.ptr)) ∧
    alreadyExistsMsg exX = "resource \x27x\x27 of type \x27T\x27 already exists" :=
  ⟨by decide, by decide,
   Create_fail_fast.1 exStoreAB [exC] exA [exB] (by decide) (by decide) (Or.inl (by decide)),
   Create_fail_fast.2 .empty (Create .Background noFaults .empty (manifest [exX])).2 exX []
     "2f8927a1ca9530fb845ce5144d16937dfdaf5c57d108914f3228809db9f3e36a" (Prod.ext (by rfl) rfl),
   by decide⟩

theorem deleteLoop_absent (rs : List Resource) :
    ∀ st : State, (∀ r ∈ rs, st.objs r.md.ptr = none) →
      deleteLoop noFaults st rs =
        (none, ⟨st.objs, st.log ++ rs.map (fun r => StoreOp.get r.md.ptr)⟩) := by
  induction rs with
  | nil => intro st _; simp [deleteLoop]
  | cons r rest ih =>
    intro st ha
    have h0 := deleteResource_absent st r (ha r (List.mem_cons_self _ _))
    simp only [deleteLoop, h0]
    rw [ih (st.record (.get r.md.ptr)) (fun x hx => ha x (List.mem_cons_of_mem _ hx))]
    simp [State.record]

theorem deleteLoop_gone (rs : List Resource) (st : State) :
    ∃ st1, deleteLoop noFaults st rs = (none, st1) ∧
      (∀ r ∈ rs, st1.objs r.md.ptr = none) ∧
      (∀ p, (∀ r ∈ rs, r.md.ptr ≠ p) → st1.objs p = st.objs p) := by
  obtain ⟨st1, h1, _, hobj1⟩ := deleteLoop_noFaults rs st
  refine ⟨st1, h1, ?_, ?_⟩
  · intro r hr
    rw [hobj1]
    have : rs.any (fun x => decide (x.md.ptr = r.md.ptr)) = true :=
      List.any_eq_true.mpr ⟨r, hr, by simp⟩
    simp [this]
  · intro p hp
    rw [hobj1]
    have : rs.any (fun x => decide (x.md.ptr = p)) = false := by
      rw [List.any_eq_false]
      intro x hx
      simpa using hp x hx
    simp [this]

/-- C5. Delete convergence is idempotent.  For every manifest (duplicates allowed) and
every store, with no failing store call, `Delete` succeeds, leaves none of the manifest's
identities stored and every other stored object unchanged; a second `Delete` of the same
manifest succeeds as well, issues one read per object and no destroy, and leaves the
stored objects unchanged. -/
theorem Delete_idempotent (st : State) (rs : List Resource) :
    ∃ st1, Delete .Background noFaults st (manifest rs) = (.ok (), st1) ∧
      (∀ r ∈ rs, st1.objs r.md.ptr = none) ∧
      (∀ p, (∀ r ∈ rs, r.md.ptr ≠ p) → st1.objs p = st.objs p) ∧
      Delete .Background noFaults st1 (manifest rs) =
        (.ok (), ⟨st1.objs, st1.log ++ rs.map (fun r => StoreOp.get r.md.ptr)⟩) := by
  obtain ⟨st1, h1, hgone, hkeep⟩ := deleteLoop_gone rs st
  refine ⟨st1, ?_, hgone, hkeep, ?_⟩
  · simp [Delete, decode_manifest, h1]
  · simp [Delete, decode_manifest, deleteLoop_absent rs st1 hgone]

/-- C6, counterexample.  Create-only is not idempotent: on the empty store `Create` of the
single-object manifest `[exX]` succeeds, and the same call run again right after fails
with the already-exists error. -/
theorem Create_rerun_fails :
    (Create .Background noFaults .empty (manifest [exX])).1 =
      .ok "2f8927a1ca9530fb845ce5144d16937dfdaf5c57d108914f3228809db9f3e36a" ∧
    (Create .Background noFaults (Create .Background noFaults .empty (manifest [exX])).2
        (manifest [exX])).1 =
      .error ⟨"Creation Error", "resource \x27x\x27 of type \x27T\x27 already exists"⟩ :=
  ⟨by rfl, by rfl⟩

/-- C6, amended.  With no failing store call, `Update` and `Delete` are idempotent with
respect to the stored identities: run a second time with the same inputs right after a
first run, each succeeds again and leaves the same identities stored.  `Create` is not:
after a first `Create` of a non-empty manifest, whatever its outcome, a second one fails
with the already-exists error for the first object, issuing one read and changing no
stored object; only for the empty manifest does it succeed again. -/
theorem rerun_idempotence (st : State) (prev new rs : List Resource) (r : Resource)
    (rest : List Resource) :
    (∃ id s1 s2, Update .Background noFaults st (manifest prev) (manifest new) = (.ok id, s1) ∧
      Update .Background noFaults s1 (manifest prev) (manifest new) = (.ok id, s2) ∧
      ∀ p, s2.present p = s1.present p) ∧
    (∃ s1 s2, Delete .Background noFaults st (manifest rs) = (.ok (), s1) ∧
      Delete .Background noFaults s1 (manifest rs) = (.ok (), s2) ∧
      ∀ p, s2.present p = s1.present p) ∧
    Create .Background noFaults (Create .Background noFaults st (manifest (r :: rest))).2
        (manifest (r :: rest)) =
      (.error ⟨errCreationFailed, alreadyExistsMsg r⟩,
        (Create .Background noFaults st (manifest (r :: rest))).2.record (.get r.md.ptr)) ∧
    Create .Background noFaults (Create .Background noFaults st (manifest [])).2 (manifest []) =
      (.ok (generateResourceId []), st) := by
  refine ⟨?_, ?_, ?_, ?_⟩
  · obtain ⟨s1, h1, _, hp1⟩ := Update_noFaults st prev new
    obtain ⟨s2, h2, _, hp2⟩ := Update_noFaults s1 prev new
    refine ⟨_, s1, s2, h1, h2, ?_⟩
    intro p
    rw [hp2, hp1]
    cases (new.foldl removeMatch prev).any (fun r => decide (r.md.ptr = p)) <;>
      cases st.present p <;> cases new.any (fun r => decide (r.md.ptr = p)) <;> rfl
  · obtain ⟨s1, h1, hgone, _⟩ := deleteLoop_gone rs st
    refine ⟨s1, ⟨s1.objs, s1.log ++ rs.map (fun x => StoreOp.get x.md.ptr)⟩, ?_, ?_, fun p => rfl⟩
    · simp [Delete, decode_manifest, h1]
    · simp [Delete, decode_manifest, deleteLoop_absent rs s1 hgone]
  · have hp := createLoop_head_present st r rest []
    rw [← Create_snd, State.present, Option.isSome_iff_exists] at hp
    obtain ⟨cur, hcur⟩ := hp
    exact Create_present_head _ r cur rest hcur
  · simp [Create, decode_manifest, createLoop]

/-- C7. Version handling in `processResource`, for every failure schedule and store.
When the read finds the object and the mode is create-or-update, the call issued next is
an update whose payload is the new object with its version replaced by the version of the
object read, identity and spec unchanged.  When the read reports not-found, the call
issued next is a create whose payload is the decoded object itself, version included, so
it carries no version when the decoder produced none. -/
theorem processResource_version_handling :
    (∀ (flt : Faults) (st st1 : State) (r result : Resource),
      st.Get flt r.md.ptr = (.ok result, st1) →
      (processResource flt st r .ModeCreateOrUpdate).2.log = st.log ++
        [.get r.md.ptr,
         .update ⟨⟨r.md.ns, r.md.typ, r.md.id, result.md.version⟩, r.spec⟩]) ∧
    (∀ (flt : Faults) (st st1 : State) (r : Resource) (err : StoreErr)
      (mode : ResourceOperationMode),
      st.Get flt r.md.ptr = (.error err, st1) → err.IsNotFoundError = true →
      (processResource flt st r mode).2.log = st.log ++ [.get r.md.ptr, .create r]) := by
  have hget : ∀ (flt : Faults) (st st1 : State) (p : Pointer) (res : Except StoreErr Resource),
      st.Get flt p = (res, st1) → st1 = st.record (.get p) := by
    intro flt st st1 p res h
    unfold State.Get at h
    split at h
    · simp only [Prod.mk.injEq] at h; exact h.2.symm
    · split at h <;> (simp only [Prod.mk.injEq] at h; exact h.2.symm)
  have hupd : ∀ (flt : Faults) (st : State) (x : Resource),
      (st.Update flt x).2.log = st.log ++ [.update x] := by
    intro flt st x
    unfold State.Update
    split
    · rfl
    · split
      · rfl
      · split <;> rfl
  have hcre : ∀ (flt : Faults) (st : State) (x : Resource),
      (st.Create flt x).2.log = st.log ++ [.create x] := by
    intro flt st x
    unfold State.Create
    split
    · rfl
    · split <;> rfl
  constructor
  · intro flt st st1 r result h
    have h1 := hget flt st st1 _ _ h
    have hu := hupd flt st1 (r.SetVersion result.md.version)
    simp only [processResource, h]
    split
    · rename_i heq; rw [heq] at hu; simp only at hu ⊢
      rw [hu, h1]; simp [State.record, Resource.SetVersion]
    · rename_i heq; rw [heq] at hu; simp only at hu ⊢
      rw [hu, h1]; simp [State.record, Resource.SetVersion]
  · intro flt st st1 r err mode h hnf
    have h1 := hget flt st st1 _ _ h
    have hc := hcre flt st1 r
    simp only [processResource, h, hnf, if_true]
    split
    · rename_i heq; rw [heq] at hc; simp only at hc ⊢
      rw [hc, h1]; simp [State.record]
    · rename_i heq; rw [heq] at hc; simp only at hc ⊢
      rw [hc, h1]; simp [State.record]

/-- Witness for C7: `exB` is stored at version 7, so its update payload carries version 7;
`exC` is not stored, so it is created as decoded, without a version. -/
theorem processResource_version_handling_witness :
    exStoreAB.Get noFaults exB.md.ptr =
      (.ok (exB.SetVersion (some 7)), exStoreAB.record (.get exB.md.ptr)) ∧
    (processResource noFaults exStoreAB exB .ModeCreateOrUpdate).2.log = exStoreAB.log ++
      [.get exB.md.ptr,
       .update ⟨⟨exB.md.ns, exB.md.typ, exB.md.id, (exB.SetVersion (some 7)).md.version⟩,
         exB.spec⟩] ∧
    exStoreAB.Get noFaults exC.md.ptr =
      (.error (.notFound exC.md.ptr), exStoreAB.record (.get exC.md.ptr)) ∧
    (processResource noFaults exStoreAB exC .ModeCreateOnly).2.log =
      exStoreAB.log ++ [.get exC.md.ptr, .create exC] ∧
    exC.md.version = none :=
  ⟨rfl,
   processResource_version_handling.1 noFaults exStoreAB _ exB _ rfl,
   rfl,
   processResource_version_handling.2 noFaults exStoreAB _ exC _ .ModeCreateOnly rfl rfl,
   rfl⟩

/-! ## The digest -/

theorem sum256_length (msg : List Nat) : (Sha256.sum256 msg).length = 32 := by
  simp [Sha256.sum256, Sha256.wordBytes]

theorem sum256_byte (msg : List Nat) : ∀ b ∈ Sha256.sum256 msg, b < 256 := by
  intro b hb
  simp only [Sha256.sum256, Sha256.wordBytes, List.mem_append, List.mem_cons,
    List.mem_singleton, List.not_mem_nil, or_false] at hb
  rcases hb with ((((((h | h) | h) | h) | h) | h) | h) | h <;>
    rcases h with h | h | h | h <;> (rw [h]; exact Nat.mod_lt _ (by decide))

/-- The test vector `SHA-256("abc")` of FIPS 180-4. -/
theorem sum256_abc :
    hexEncodeToString (Sha256.sum256 (stringBytes "abc")) =
      "ba7816bf8f01cfea414140de5dae2223b00361a396177a9cb410ff61f20015ad" := by
  rfl

theorem hexEncodeToString_length (bs : List Nat) :
    (hexEncodeToString bs).length = 2 * bs.length := by
  induction bs with
  | nil => rfl
  | cons b rest ih =>
    simp only [hexEncodeToString, String.length, List.flatMap_cons, List.length_append,
      List.length_cons, List.length_nil] at ih ⊢
    omega

theorem hexDigit_mem (n : Nat) : hexDigit n ∈ "0123456789abcdef".data := by
  unfold hexDigit
  by_cases h : n < "0123456789abcdef".data.length
  · rw [List.getD_eq_getElem _ _ h]
    exact List.getElem_mem _
  · rw [List.getD_eq_default _ _ (Nat.le_of_not_lt h)]
    decide

theorem hexEncodeToString_chars (bs : List Nat) :
    ∀ c ∈ (hexEncodeToString bs).data, c ∈ "0123456789abcdef".data := by
  intro c hc
  simp only [hexEncodeToString, List.mem_flatMap, List.mem_cons, List.mem_singleton,
    List.not_mem_nil, or_false] at hc
  obtain ⟨b, _, h | h⟩ := hc <;> (rw [h]; exact hexDigit_mem _)

theorem hexDigit_inj : ∀ m < 16, ∀ n < 16, hexDigit m = hexDigit n → m = n := by
  decide

theorem hexEncodeToString_data (bs : List Nat) :
    (hexEncodeToString bs).data =
      bs.flatMap (fun b => [hexDigit (b / 16 % 16), hexDigit (b % 16)]) := rfl

theorem hexEncodeToString_inj (as : List Nat) :
    ∀ bs : List Nat, (∀ a ∈ as, a < 256) → (∀ b ∈ bs, b < 256) →
      hexEncodeToString as = hexEncodeToString bs → as = bs := by
  induction as with
  | nil =>
    intro bs _ _ h
    have h := congrArg String.data h
    rw [hexEncodeToString_data, hexEncodeToString_data] at h
    cases bs with
    | nil => rfl
    | cons b rest => simp at h
  | cons a as ih =>
    intro bs ha hb h
    have h := congrArg String.data h
    rw [hexEncodeToString_data, hexEncodeToString_data] at h
    cases bs with
    | nil => simp at h
    | cons b bs =>
      simp only [List.flatMap_cons, List.cons_append, List.nil_append, List.cons.injEq] at h
      obtain ⟨h1, h2, h3⟩ := h
      have e1 := hexDigit_inj _ (Nat.mod_lt _ (by decide)) _ (Nat.mod_lt _ (by decide)) h1
      have e2 := hexDigit_inj _ (Nat.mod_lt _ (by decide)) _ (Nat.mod_lt _ (by decide)) h2
      have la := ha a (List.mem_cons_self _ _)
      have lb := hb b (List.mem_cons_self _ _)
      have hab : a = b := by omega
      have hrest := ih bs (fun x hx => ha x (List.mem_cons_of_mem _ hx))
        (fun x hx => hb x (List.mem_cons_of_mem _ hx))
        (by rw [String.ext_iff, hexEncodeToString_data, hexEncodeToString_data]; exact h3)
      rw [hab, hrest]

/-- C8, counterexample.  Two lists that differ as sequences (and in membership) get the
same digest, because their elements joined with `-` give the same string. -/
theorem generateResourceId_collision :
    ["T.x-T.y"] ≠ ["T.x", "T.y"] ∧
    generateResourceId ["T.x-T.y"] = generateResourceId ["T.x", "T.y"] :=
  ⟨by decide, by rfl⟩

/-- C8, amended.  The digest is determined by the `-`-joined string: two lists get the
same digest exactly when the SHA-256 sums of their joined strings are the same, hence
always when the joined strings are equal, whatever the lists; the digests of
`["type1.id1", "type2.id2"]` and of `["type2.id2", "type1.id1"]` differ. -/
theorem generateResourceId_depends_on_join :
    (∀ a b : List String, generateResourceId a = generateResourceId b ↔
      Sha256.sum256 (stringBytes (stringsJoin a "-")) =
        Sha256.sum256 (stringBytes (stringsJoin b "-"))) ∧
    (∀ a b : List String, stringsJoin a "-" = stringsJoin b "-" →
      generateResourceId a = generateResourceId b) ∧
    generateResourceId ["type1.id1", "type2.id2"] ≠
      generateResourceId ["type2.id2", "type1.id1"] := by
  refine ⟨?_, ?_, ?_⟩
  · intro a b
    constructor
    · intro h
      exact hexEncodeToString_inj _ _ (sum256_byte _) (sum256_byte _) h
    · intro h
      simp only [generateResourceId, h]
  · intro a b h
    simp only [generateResourceId, h]
  · have h1 : generateResourceId ["type1.id1", "type2.id2"] =
        "018020651618f20ea62fe50755dcc27c99ee9d48d71d4c0a5248f625c6e830fa" := by rfl
    have h2 : generateResourceId ["type2.id2", "type1.id1"] =
        "aa163a897b8627db981f4dc3ba2b37f99dc837d0a35a2d7e85f274a9e5b287a7" := by rfl
    rw [h1, h2]
    decide

/-- Witness for C8: the lists `["T.x-T.y"]` and `["T.x", "T.y"]` have the same joined
string. -/
theorem generateResourceId_depends_on_join_witness :
    stringsJoin ["T.x-T.y"] "-" = stringsJoin ["T.x", "T.y"] "-" ∧
    generateResourceId ["T.x-T.y"] = generateResourceId ["T.x", "T.y"] :=
  ⟨by decide, generateResourceId_depends_on_join.2.1 ["T.x-T.y"] ["T.x", "T.y"] (by decide)⟩

theorem intercalate_go_hyphen (l : List String) :
    ∀ acc : String, String.intercalate.go acc "-" l =
      match l with
      | [] => acc
      | a :: rest => acc ++ "-" ++ joinWithHyphen (a :: rest) := by
  induction l with
  | nil => intro acc; rfl
  | cons a rest ih =>
    intro acc
    cases rest with
    | nil => simp [String.intercalate.go, joinWithHyphen]
    | cons b rest2 =>
      have h := ih (acc ++ "-" ++ a)
      simp only at h
      rw [String.intercalate.go, h]
      simp [joinWithHyphen, String.append_assoc]

theorem stringsJoin_eq_joinWithHyphen (arr : List String) :
    stringsJoin arr "-" = joinWithHyphen arr := by
  cases arr with
  | nil => rfl
  | cons a rest =>
    cases rest with
    | nil => rfl
    | cons b rest2 =>
      rw [stringsJoin, String.intercalate, intercalate_go_hyphen]
      simp [joinWithHyphen]

/-- C9. The digest `generateResourceId arr` is the lowercase hexadecimal encoding of the
SHA-256 sum of the elements joined with `-` (here against the join written out as
`joinWithHyphen`): it always has 64 characters, all among `0-9a-f`; equal lists give equal
digests; the empty list gives the SHA-256 of the empty string, `e3b0c442...7852b855`; and
the digests of the lists of the tests, of a three-element list and of a non-ASCII
identity are the SHA-256 values of their joined UTF-8 strings. -/
theorem generateResourceId_format :
    (∀ arr : List String,
      generateResourceId arr =
        hexEncodeToString (Sha256.sum256 (stringBytes (joinWithHyphen arr))) ∧
      generateResourceId arr =
        hexEncodeToString (Sha256.sum256 (stringBytes (stringsJoin arr "-"))) ∧
      (generateResourceId arr).length = 64 ∧
      ∀ c ∈ (generateResourceId arr).data, c ∈ "0123456789abcdef".data) ∧
    (∀ a b : List String, a = b → generateResourceId a = generateResourceId b) ∧
    generateResourceId [] =
      "e3b0c44298fc1c149afbf4c8996fb92427ae41e4649b934ca495991b7852b855" ∧
    generateResourceId [] = hexEncodeToString (Sha256.sum256 (stringBytes "")) ∧
    (∀ a : String, stringsJoin [a] "-" = a) ∧
    (∀ (a b : String) (rest : List String),
      stringsJoin (a :: b :: rest) "-" = a ++ "-" ++ stringsJoin (b :: rest) "-") ∧
    generateResourceId ["type1.id1", "type2.id2"] =
      "018020651618f20ea62fe50755dcc27c99ee9d48d71d4c0a5248f625c6e830fa" ∧
    generateResourceId ["MachineClasses.omni.sidero.dev.test-apply-yaml"] =
      "74cc89fac6aa958d3cd5be38de3305e91b7f197e835f56a2dfd5340893168ef7" ∧
    generateResourceId ["MachineClasses.omni.sidero.dev.test-apply-yaml",
        "MachineClasses.omni.sidero.dev.test-apply-yaml-2"] =
      "4b9b0454e8841d57c0691614f69fb32d924ab127305a86835d4463007501d608" ∧
    generateResourceId ["a", "b", "c"] =
      "cbd2be7b96f770a0326948ebd158cf539fab0627e8adbddc97f7a65c6a8ae59a" ∧
    generateResourceId ["é"] =
      "4a99557e4033c3539de2eb65472017cad5f9557f7a0625a09f1c3f6e2ba69c4c" := by
  refine ⟨?_, ?_, ?_, ?_, ?_, ?_, ?_, ?_, ?_, ?_, ?_⟩
  · intro arr
    refine ⟨?_, rfl, ?_, ?_⟩
    · rw [← stringsJoin_eq_joinWithHyphen]; rfl
    · simp only [generateResourceId]
      rw [hexEncodeToString_length, sum256_length]
    · exact hexEncodeToString_chars _
  · intro a b h
    rw [h]
  · rfl
  · rfl
  · intro a
    rw [stringsJoin_eq_joinWithHyphen]; rfl
  · intro a b rest
    rw [stringsJoin_eq_joinWithHyphen, stringsJoin_eq_joinWithHyphen]; rfl
  · rfl
  · rfl
  · rfl
  · rfl
  · rfl

/-- Witness for C9: the two equal lists of the unit test get the same digest. -/
theorem generateResourceId_format_witness :
    ["type1.id1", "type2.id2"] = ["type1.id1", "type2.id2"] ∧
    generateResourceId ["type1.id1", "type2.id2"] =
      generateResourceId ["type1.id1", "type2.id2"] :=
  ⟨rfl, generateResourceId_format.2.1 ["type1.id1", "type2.id2"] ["type1.id1", "type2.id2"] rfl⟩

/-! ## Identity matching -/

/-- C10. `resourcesMatch a b` holds exactly when `a` and `b` have the same id, the same
type and the same namespace, compared as exact strings (so `T` and `t` differ); version
and spec play no part; the relation is reflexive, symmetric and transitive. -/
theorem resourcesMatch_spec :
    (∀ a b : Resource, resourcesMatch a b = true ↔
      a.md.id = b.md.id ∧ a.md.typ = b.md.typ ∧ a.md.ns = b.md.ns) ∧
    (∀ (a b : Resource) (v w : Version) (s t : String),
      resourcesMatch ⟨⟨a.md.ns, a.md.typ, a.md.id, v⟩, s⟩ ⟨⟨b.md.ns, b.md.typ, b.md.id, w⟩, t⟩ =
        resourcesMatch a b) ∧
    (∀ a : Resource, resourcesMatch a a = true) ∧
    (∀ a b : Resource, resourcesMatch a b = resourcesMatch b a) ∧
    (∀ a b c : Resource, resourcesMatch a b = true → resourcesMatch b c = true →
      resourcesMatch a c = true) ∧
    resourcesMatch ⟨⟨"ns", "T", "x", none⟩, ""⟩ ⟨⟨"ns", "t", "x", none⟩, ""⟩ = false := by
  refine ⟨?_, ?_, ?_, ?_, ?_, ?_⟩
  · intro a b
    simp [resourcesMatch, and_assoc]
  · intro a b v w s t
    rfl
  · intro a
    simp [resourcesMatch]
  · intro a b
    simp only [resourcesMatch]
    rw [Bool.eq_iff_iff]
    simp only [Bool.and_eq_true, beq_iff_eq]
    constructor <;> (rintro ⟨⟨h1, h2⟩, h3⟩; exact ⟨⟨h1.symm, h2.symm⟩, h3.symm⟩)
  · intro a b c hab hbc
    rw [resourcesMatch_iff_ptr] at *
    exact hab.trans hbc
  · decide

/-- Witness for C10: `exB` stored at version 7 matches the decoded `exB`, which matches
itself, so the first matches the last. -/
theorem resourcesMatch_spec_witness :
    resourcesMatch (exB.SetVersion (some 7)) exB = true ∧ resourcesMatch exB exB = true ∧
    resourcesMatch (exB.SetVersion (some 7)) exB = true :=
  ⟨by decide, by decide,
   resourcesMatch_spec.2.2.2.2.1 (exB.SetVersion (some 7)) exB exB (by decide) (by decide)⟩

/-! ## The decoder -/

theorem live_eq_Background (ctx : Context) (h : ctx.err = none) : ctx = .Background := by
  cases ctx
  simp only [Context.Background] at *
  simp [h]

theorem decodeLoop_manifest_malformed (pre : List Resource) (e : String)
    (post : List Document) :
    ∀ (v : Option Resource) (acc : List Resource),
      decodeLoop .Background (manifest pre ++ Document.malformed e :: post) v acc =
        .error ⟨errYAMLDecodingError, "Failed to decode YAML: " ++ e⟩ := by
  induction pre with
  | nil => intro v acc; simp [manifest, decodeLoop, Context.Background]
  | cons r pre ih =>
    intro v acc
    have := ih (some r) (acc ++ [r])
    simp only [manifest, List.map_cons, List.cons_append] at this ⊢
    simp only [decodeLoop, Context.Background]
    simpa [Context.Background] using this

theorem wellFormed_eq_manifest (docs : List Document)
    (h : ∀ d ∈ docs, ∃ r, d = Document.resource r) : ∃ rs, docs = manifest rs := by
  induction docs with
  | nil => exact ⟨[], rfl⟩
  | cons d rest ih =>
    obtain ⟨r, hr⟩ := h d (List.mem_cons_self _ _)
    obtain ⟨rs, hrs⟩ := ih (fun x hx => h x (List.mem_cons_of_mem _ hx))
    exact ⟨r :: rs, by simp [manifest, hr, hrs]⟩

/-- C11. Decode is order-preserving.  With a live context, a manifest of `N` well-formed
documents, that is documents that each decode to a resource with its own metadata,
decodes without error to exactly `N` objects, the `i`-th being the one decoded from the
`i`-th document; the end of the input ends the loop normally, and the empty manifest
decodes to the empty list.  (A null document is not such a document: the loop appends the
previous resource again or panics there.) -/
theorem decode_order_preserving :
    (∀ (ctx : Context) (rs : List Resource), ctx.err = none →
      decodeYAMLResources ctx (manifest rs) = .ok rs) ∧
    (∀ (ctx : Context) (docs : List Document), ctx.err = none →
      (∀ d ∈ docs, ∃ r, d = Document.resource r) →
      ∃ out, decodeYAMLResources ctx docs = .ok out ∧ out.length = docs.length ∧
        ∀ i : Nat, docs[i]? = out[i]?.map Document.resource) ∧
    (∀ ctx : Context, ctx.err = none → decodeYAMLResources ctx [] = .ok []) := by
  have main : ∀ (ctx : Context) (rs : List Resource), ctx.err = none →
      decodeYAMLResources ctx (manifest rs) = .ok rs := by
    intro ctx rs h
    rw [live_eq_Background ctx h]
    exact decode_manifest rs
  refine ⟨main, ?_, ?_⟩
  · intro ctx docs h hw
    obtain ⟨rs, hrs⟩ := wellFormed_eq_manifest docs hw
    refine ⟨rs, by rw [hrs]; exact main ctx rs h, by simp [hrs, manifest], ?_⟩
    intro i
    simp [hrs, manifest]
  · intro ctx h
    exact main ctx [] h

/-- Witness for C11: the manifests of zero, one and three example documents. -/
theorem decode_order_preserving_witness :
    Context.Background.err = none ∧
    decodeYAMLResources .Background (manifest []) = .ok [] ∧
    decodeYAMLResources .Background (manifest [exX]) = .ok [exX] ∧
    decodeYAMLResources .Background (manifest [exC, exA, exB]) = .ok [exC, exA, exB] ∧
    (∃ out, decodeYAMLResources .Background [.resource exB, .resource exA] = .ok out ∧
      out.length = [Document.resource exB, Document.resource exA].length ∧
      ∀ i : Nat, [Document.resource exB, Document.resource exA][i]? =
        out[i]?.map Document.resource) ∧
    decodeYAMLResources .Background [] = .ok [] :=
  ⟨rfl,
   decode_order_preserving.1 .Background [] rfl,
   decode_order_preserving.1 .Background [exX] rfl,
   decode_order_preserving.1 .Background [exC, exA, exB] rfl,
   decode_order_preserving.2.1 .Background [.resource exB, .resource exA] rfl
     (by intro d hd
         simp only [List.mem_cons, List.mem_singleton, List.not_mem_nil, or_false] at hd
         rcases hd with rfl | rfl
         · exact ⟨exB, rfl⟩
         · exact ⟨exA, rfl⟩),
   decode_order_preserving.2.2 .Background rfl⟩

/-- C12 (code evaluated at the failing input).  A manifest whose first document is null
and whose second document is malformed does not yield the YAML decoding diagnostic: after
the null document `Decode` has returned nil without setting `yamlResource`, and
`yamlResource.Resource()` panics with `resource is not set` before the malformed document
is reached.  After a decoded document a null document does not panic: the previous
resource is appended again.  When only documents that decode to resources precede the
first malformed document, the result is the YAML decoding diagnostic of that document and
no objects. -/
theorem decode_null_then_malformed_panics :
    (∀ (e : String) (post : List Document),
      decodeYAMLResources .Background (Document.null :: Document.malformed e :: post) =
        .panic "resource is not set") ∧
    (∀ a : Resource,
      decodeYAMLResources .Background [Document.resource a, Document.null] = .ok [a, a]) ∧
    (∀ (pre : List Resource) (e : String) (post : List Document),
      decodeYAMLResources .Background (manifest pre ++ Document.malformed e :: post) =
        .error ⟨errYAMLDecodingError, "Failed to decode YAML: " ++ e⟩) := by
  refine ⟨?_, ?_, ?_⟩
  · intro e post
    simp [decodeYAMLResources, decodeLoop, Context.Background]
  · intro a
    simp [decodeYAMLResources, decodeLoop, Context.Background]
  · intro pre e post
    exact decodeLoop_manifest_malformed pre e post none []

/-- C13. Cancellation is checked before every document.  With a context that is already
cancelled or expired, `decodeYAMLResources` returns the context-error diagnostic and no
objects for every input, the empty one and one whose first document is malformed
included, so no document is decoded; `Create`, `Update` and `Delete` called with such a
context fail with that diagnostic and leave the remote state, call log included, as it
was: they issue no store call. -/
theorem decode_cancelled :
    (∀ (ctx : Context) (e : String) (docs : List Document), ctx.err = some e →
      decodeYAMLResources ctx docs =
        .error ⟨errContextError, "Operation cancelled: " ++ e⟩) ∧
    (∀ (ctx : Context) (e : String) (flt : Faults) (st : State)
      (stateYaml planYaml : List Document), ctx.err = some e →
      Create ctx flt st planYaml =
        (.error ⟨errContextError, "Operation cancelled: " ++ e⟩, st) ∧
      Update ctx flt st stateYaml planYaml =
        (.error ⟨errContextError, "Operation cancelled: " ++ e⟩, st) ∧
      Delete ctx flt st stateYaml =
        (.error ⟨errContextError, "Operation cancelled: " ++ e⟩, st)) := by
  have main : ∀ (ctx : Context) (e : String) (docs : List Document), ctx.err = some e →
      decodeYAMLResources ctx docs =
        .error ⟨errContextError, "Operation cancelled: " ++ e⟩ := by
    intro ctx e docs h
    rw [decodeYAMLResources, decodeLoop_cancelled ctx e h]
  refine ⟨main, ?_⟩
  intro ctx e flt st stateYaml planYaml h
  refine ⟨?_, ?_, ?_⟩
  · simp only [Create, main ctx e planYaml h]
  · simp only [Update, main ctx e stateYaml h]
  · simp only [Delete, main ctx e stateYaml h]

/-- Witness for C13: the cancelled example context on the empty input, on an input whose
first document is malformed, and in the three operations on the example store. -/
theorem decode_cancelled_witness :
    exCancelled.err = some "context canceled" ∧
    decodeYAMLResources exCancelled [] =
      .error ⟨errContextError, "Operation cancelled: " ++ "context canceled"⟩ ∧
    decodeYAMLResources exCancelled [.malformed "bad", .resource exA] =
      .error ⟨errContextError, "Operation cancelled: " ++ "context canceled"⟩ ∧
    (Create exCancelled noFaults exStoreAB (manifest [exC]) =
        (.error ⟨errContextError, "Operation cancelled: " ++ "context canceled"⟩, exStoreAB) ∧
      Update exCancelled noFaults exStoreAB (manifest [exA, exB]) (manifest [exC]) =
        (.error ⟨errContextError, "Operation cancelled: " ++ "context canceled"⟩, exStoreAB) ∧
      Delete exCancelled noFaults exStoreAB (manifest [exA, exB]) =
        (.error ⟨errContextError, "Operation cancelled: " ++ "context canceled"⟩, exStoreAB)) :=
  ⟨rfl,
   decode_cancelled.1 exCancelled "context canceled" [] rfl,
   decode_cancelled.1 exCancelled "context canceled" [.malformed "bad", .resource exA] rfl,
   decode_cancelled.2 exCancelled "context canceled" noFaults exStoreAB (manifest [exA, exB])
     (manifest [exC]) rfl⟩

/-! ## Lemmas for arbitrary failure schedules -/

theorem Get_snd (flt : Faults) (st : State) (p : Pointer) :
    (st.Get flt p).2 = st.record (.get p) := by
  unfold State.Get
  split
  · rfl
  · split <;> rfl

theorem Create_log (flt : Faults) (st : State) (x : Resource) :
    (st.Create flt x).2.log = st.log ++ [.create x] := by
  unfold State.Create
  split
  · rfl
  · split <;> rfl

theorem Update_log (flt : Faults) (st : State) (x : Resource) :
    (st.Update flt x).2.log = st.log ++ [.update x] := by
  unfold State.Update
  split
  · rfl
  · split
    · rfl
    · split <;> rfl

theorem Destroy_log (flt : Faults) (st : State) (p : Pointer) :
    (st.Destroy flt p).2.log = st.log ++ [.destroy p] := by
  unfold State.Destroy
  split
  · rfl
  · split <;> rfl

theorem processResource_log (flt : Faults) (st : State) (r : Resource)
    (mode : ResourceOperationMode) :
    (processResource flt st r mode).2.log = st.log ++ [.get r.md.ptr] ∨
    (processResource flt st r mode).2.log = st.log ++ [.get r.md.ptr, .create r] ∨
    ∃ v, (processResource flt st r mode).2.log =
      st.log ++ [.get r.md.ptr, .update (r.SetVersion v)] := by
  have hg := Get_snd flt st r.md.ptr
  rcases hget : st.Get flt r.md.ptr with ⟨res, st1⟩
  rw [hget] at hg
  simp only at hg
  cases res with
  | error err =>
    simp only [processResource, hget]
    split
    · have hc := Create_log flt st1 r
      right; left
      split
      · rename_i heq; rw [heq] at hc; simp only at hc ⊢
        rw [hc, hg]; simp [State.record]
      · rename_i heq; rw [heq] at hc; simp only at hc ⊢
        rw [hc, hg]; simp [State.record]
    · left
      simp [hg, State.record]
  | ok result =>
    simp only [processResource, hget]
    cases mode with
    | ModeCreateOnly => left; simp [hg, State.record]
    | ModeCreateOrUpdate =>
      have hu := Update_log flt st1 (r.SetVersion result.md.version)
      right; right
      refine ⟨result.md.version, ?_⟩
      simp only
      split
      · rename_i heq; rw [heq] at hu; simp only at hu ⊢
        rw [hu, hg]; simp [State.record]
      · rename_i heq; rw [heq] at hu; simp only at hu ⊢
        rw [hu, hg]; simp [State.record]

theorem deleteResource_log (flt : Faults) (st : State) (r : Resource) :
    (deleteResource flt st r).2.log = st.log ++ [.get r.md.ptr] ∨
    (deleteResource flt st r).2.log = st.log ++ [.get r.md.ptr, .destroy r.md.ptr] := by
  have hg := Get_snd flt st r.md.ptr
  rcases hget : st.Get flt r.md.ptr with ⟨res, st1⟩
  rw [hget] at hg
  simp only at hg
  cases res with
  | error err =>
    left
    simp only [deleteResource, hget]
    split <;> simp [hg, State.record]
  | ok result =>
    right
    have hd := Destroy_log flt st1 r.md.ptr
    simp only [deleteResource, hget]
    split
    · rename_i heq; rw [heq] at hd; simp only at hd ⊢
      rw [hd, hg]; simp [State.record]
    · rename_i heq; rw [heq] at hd; simp only at hd ⊢
      rw [hd, hg]; simp [State.record]

theorem applyLoop_log (flt : Faults) (new : List Resource) :
    ∀ (st : State) (cands : List Resource) (idArr : List String),
      ∃ L, (applyLoop flt st cands new idArr).2.log = st.log ++ L ∧
        ∀ op ∈ L, op.kind.1 ≠ OpKind.destroy := by
  induction new with
  | nil => intro st cands idArr; exact ⟨[], by simp [applyLoop]⟩
  | cons r rest ih =>
    intro st cands idArr
    have hstep : ∃ L0, (processResource flt st r .ModeCreateOrUpdate).2.log = st.log ++ L0 ∧
        ∀ op ∈ L0, op.kind.1 ≠ OpKind.destroy := by
      rcases processResource_log flt st r .ModeCreateOrUpdate with h | h | ⟨v, h⟩
      · exact ⟨_, h, by simp [StoreOp.kind]⟩
      · exact ⟨_, h, by simp [StoreOp.kind]⟩
      · exact ⟨_, h, by simp [StoreOp.kind]⟩
    obtain ⟨L0, hL0, hk0⟩ := hstep
    rcases hp : processResource flt st r .ModeCreateOrUpdate with ⟨res, st1⟩
    rw [hp] at hL0
    simp only at hL0
    cases res with
    | some err => exact ⟨L0, by simp [applyLoop, hp, hL0], hk0⟩
    | none =>
      obtain ⟨L1, hL1, hk1⟩ := ih st1 (removeMatch cands r) (idArr ++ [idString r])
      refine ⟨L0 ++ L1, by simp [applyLoop, hp, hL1, hL0], ?_⟩
      intro op hop
      rcases List.mem_append.mp hop with h | h
      · exact hk0 op h
      · exact hk1 op h

theorem deleteLoop_log (flt : Faults) (rs : List Resource) :
    ∀ st : State, ∃ L, (deleteLoop flt st rs).2.log = st.log ++ L ∧
      ∀ op ∈ L, ∃ r ∈ rs, op = .get r.md.ptr ∨ op = .destroy r.md.ptr := by
  induction rs with
  | nil => intro st; exact ⟨[], by simp [deleteLoop]⟩
  | cons r rest ih =>
    intro st
    have hstep : ∃ L0, (deleteResource flt st r).2.log = st.log ++ L0 ∧
        ∀ op ∈ L0, op = .get r.md.ptr ∨ op = .destroy r.md.ptr := by
      rcases deleteResource_log flt st r with h | h
      · exact ⟨_, h, by simp⟩
      · exact ⟨_, h, by simp⟩
    obtain ⟨L0, hL0, hk0⟩ := hstep
    rcases hp : deleteResource flt st r with ⟨res, st1⟩
    rw [hp] at hL0
    simp only at hL0
    cases res with
    | some err =>
      exact ⟨L0, by simp [deleteLoop, hp, hL0],
        fun op hop => ⟨r, List.mem_cons_self _ _, hk0 op hop⟩⟩
    | none =>
      obtain ⟨L1, hL1, hk1⟩ := ih st1
      refine ⟨L0 ++ L1, by simp [deleteLoop, hp, hL1, hL0], ?_⟩
      intro op hop
      rcases List.mem_append.mp hop with h | h
      · exact ⟨r, List.mem_cons_self _ _, hk0 op h⟩
      · obtain ⟨x, hx, hor⟩ := hk1 op h
        exact ⟨x, List.mem_cons_of_mem _ hx, hor⟩

theorem applyLoop_cands (flt : Faults) (new : List Resource) :
    ∀ (st : State) (cands : List Resource) (idArr : List String) (out : List Resource)
      (ids : List String) (st1 : State),
      applyLoop flt st cands new idArr = (.ok (out, ids), st1) →
        out = new.foldl removeMatch cands := by
  induction new with
  | nil =>
    intro st cands idArr out ids st1 h
    simp only [applyLoop, Prod.mk.injEq, Except.ok.injEq] at h
    simp [h.1.1]
  | cons r rest ih =>
    intro st cands idArr out ids st1 h
    simp only [applyLoop] at h
    split at h
    · simp at h
    · rw [ih _ _ _ _ _ _ h]; simp

theorem applyLoop_append (flt : Faults) (pre : List Resource) :
    ∀ (st : State) (cands rest : List Resource) (idArr : List String),
      applyLoop flt st cands (pre ++ rest) idArr =
        match applyLoop flt st cands pre idArr with
        | (.error err, st1) => (.error err, st1)
        | (.ok (out, ids), st1) => applyLoop flt st1 out rest ids := by
  induction pre with
  | nil => intro st cands rest idArr; simp [applyLoop]
  | cons r pre ih =>
    intro st cands rest idArr
    simp only [List.cons_append, applyLoop]
    split
    · rfl
    · exact ih _ _ _ _

theorem Update_manifest (flt : Faults) (st : State) (prev new : List Resource) :
    Update .Background flt st (manifest prev) (manifest new) =
      match applyLoop flt st prev new [] with
      | (.error err, st1) => (.error ⟨errUpdateFailed, err⟩, st1)
      | (.ok (cands, idArr), st1) =>
        match deleteLoop flt st1 cands with
        | (some err, st2) => (.error ⟨errDeleteFailed, err⟩, st2)
        | (none, st2) => (.ok (generateResourceId idArr), st2) := by
  simp only [Update, decode_manifest]

/-- C16. `Update` is fail-fast and deletes only after the whole apply pass.  In every run,
whatever the context, the inputs and the failing store calls, the calls issued split into
a first part without any destroy and a second part without any create or update.  If the
new objects before index `k` are applied without error and then the read, the create or
the update of object `k` fails, `Update` returns no ID but the update-error diagnostic
whose text carries the id and type of object `k`; the remote state is left as it is right
after the failing call, so nothing is issued for the objects after `k`, and no destroy
has been issued in the call. -/
theorem Update_fail_fast :
    (∀ (ctx : Context) (flt : Faults) (st : State) (stateYaml planYaml : List Document),
      ∃ L1 L2, (Update ctx flt st stateYaml planYaml).2.log = st.log ++ L1 ++ L2 ∧
        (∀ op ∈ L1, op.kind.1 ≠ OpKind.destroy) ∧
        (∀ op ∈ L2, op.kind.1 ≠ OpKind.create ∧ op.kind.1 ≠ OpKind.update)) ∧
    (∀ (flt : Faults) (st stk : State) (prev pre : List Resource) (r : Resource)
      (post cands : List Resource) (ids : List String),
      applyLoop flt st prev pre [] = (.ok (cands, ids), stk) →
      (∃ L, stk.log = st.log ++ L ∧ ∀ op ∈ L, op.kind.1 ≠ OpKind.destroy) ∧
      (∀ (e : StoreErr) (s1 : State),
        stk.Get flt r.md.ptr = (.error e, s1) → e.IsNotFoundError = false →
        Update .Background flt st (manifest prev) (manifest (pre ++ r :: post)) =
          (.error ⟨errUpdateFailed, checkFailedMsg r e⟩, s1) ∧
        s1.log = stk.log ++ [.get r.md.ptr]) ∧
      (∀ (e e2 : StoreErr) (s1 s2 : State),
        stk.Get flt r.md.ptr = (.error e, s1) → e.IsNotFoundError = true →
        s1.Create flt r = (some e2, s2) →
        Update .Background flt st (manifest prev) (manifest (pre ++ r :: post)) =
          (.error ⟨errUpdateFailed, createFailedMsg r e2⟩, s2) ∧
        s2.log = stk.log ++ [.get r.md.ptr, .create r]) ∧
      (∀ (result : Resource) (e2 : StoreErr) (s1 s2 : State),
        stk.Get flt r.md.ptr = (.ok result, s1) →
        s1.Update flt (r.SetVersion result.md.version) = (some e2, s2) →
        Update .Background flt st (manifest prev) (manifest (pre ++ r :: post)) =
          (.error ⟨errUpdateFailed, updateFailedMsg r e2⟩, s2) ∧
        s2.log = stk.log ++ [.get r.md.ptr, .update (r.SetVersion result.md.version)])) := by
  constructor
  · intro ctx flt st stateYaml planYaml
    unfold Update
    split
    · exact ⟨[], [], by simp⟩
    · exact ⟨[], [], by simp⟩
    · rename_i stateResources _
      split
      · exact ⟨[], [], by simp⟩
      · exact ⟨[], [], by simp⟩
      · rename_i planResources _
        obtain ⟨L1, hL1, hk1⟩ := applyLoop_log flt planResources st stateResources []
        rcases ha : applyLoop flt st stateResources planResources [] with ⟨res, st1⟩
        rw [ha] at hL1
        simp only at hL1
        cases res with
        | error err => exact ⟨L1, [], by simp [hL1], hk1, by simp⟩
        | ok pr =>
          obtain ⟨cands, idArr⟩ := pr
          obtain ⟨L2, hL2, hk2⟩ := deleteLoop_log flt cands st1
          have hk2b : ∀ op ∈ L2, op.kind.1 ≠ OpKind.create ∧ op.kind.1 ≠ OpKind.update := by
            intro op hop
            obtain ⟨x, _, h | h⟩ := hk2 op hop <;> simp [h, StoreOp.kind]
          rcases hd : deleteLoop flt st1 cands with ⟨r2, st2⟩
          rw [hd] at hL2
          simp only at hL2
          cases r2 with
          | some err => exact ⟨L1, L2, by simp [hd, hL2, hL1], hk1, hk2b⟩
          | none => exact ⟨L1, L2, by simp [hd, hL2, hL1], hk1, hk2b⟩
  · intro flt st stk prev pre r post cands ids hpre
    have hlog : ∃ L, stk.log = st.log ++ L ∧ ∀ op ∈ L, op.kind.1 ≠ OpKind.destroy := by
      obtain ⟨L, hL, hk⟩ := applyLoop_log flt pre st prev []
      rw [hpre] at hL
      exact ⟨L, hL, hk⟩
    have hrun : ∀ (msg : String) (s : State),
        processResource flt stk r .ModeCreateOrUpdate = (some msg, s) →
        Update .Background flt st (manifest prev) (manifest (pre ++ r :: post)) =
          (.error ⟨errUpdateFailed, msg⟩, s) := by
      intro msg s hp
      rw [Update_manifest, applyLoop_append, hpre]
      simp [applyLoop, hp]
    refine ⟨hlog, ?_, ?_, ?_⟩
    · intro e s1 hget hnf
      have hs1 := Get_snd flt stk r.md.ptr
      rw [hget] at hs1
      simp only at hs1
      refine ⟨hrun _ _ ?_, by simp [hs1, State.record]⟩
      simp [processResource, hget, hnf, checkFailedMsg]
    · intro e e2 s1 s2 hget hnf hcre
      have hs1 := Get_snd flt stk r.md.ptr
      rw [hget] at hs1
      simp only at hs1
      have hs2 := Create_log flt s1 r
      rw [hcre] at hs2
      simp only at hs2
      refine ⟨hrun _ _ ?_, by simp [hs2, hs1, State.record]⟩
      simp [processResource, hget, hnf, hcre, createFailedMsg]
    · intro result e2 s1 s2 hget hupd
      have hs1 := Get_snd flt stk r.md.ptr
      rw [hget] at hs1
      simp only at hs1
      have hs2 := Update_log flt s1 (r.SetVersion result.md.version)
      rw [hupd] at hs2
      simp only at hs2
      refine ⟨hrun _ _ ?_, by simp [hs2, hs1, State.record]⟩
      simp [processResource, hget, hupd, updateFailedMsg]

/-- Witness for C16: on the example store, with previous `[exA, exB]` and new
`[exB, exC, exX]`, the fourth call (the create of `exC`, index 1) fails: `exB` has been
updated, nothing is issued for `exX`, and `exA` is not destroyed. -/
theorem Update_fail_fast_witness :
    applyLoop exFaultFourthCall exStoreAB [exA, exB] [exB] [] =
      (.ok ([exA], ["T.b"]), (applyLoop exFaultFourthCall exStoreAB [exA, exB] [exB] []).2) ∧
    (Update .Background exFaultFourthCall exStoreAB (manifest [exA, exB])
        (manifest ([exB] ++ exC :: [exX])) =
      (.error ⟨errUpdateFailed, createFailedMsg exC (.failure "connection refused")⟩,
        (((applyLoop exFaultFourthCall exStoreAB [exA, exB] [exB] []).2.record
          (.get exC.md.ptr)).record (.create exC))) ∧
      (((applyLoop exFaultFourthCall exStoreAB [exA, exB] [exB] []).2.record
          (.get exC.md.ptr)).record (.create exC)).log =
        (applyLoop exFaultFourthCall exStoreAB [exA, exB] [exB] []).2.log ++
          [.get exC.md.ptr, .create exC]) ∧
    (Update .Background exFaultFourthCall exStoreAB (manifest [exA, exB])
        (manifest [exB, exC, exX])).2.log =
      [.get exB.md.ptr, .update (exB.SetVersion (some 7)), .get exC.md.ptr, .create exC] ∧
    createFailedMsg exC (.failure "connection refused") =
      "failed to create resource \x27c\x27 of type \x27T\x27: connection refused" :=
  ⟨Prod.ext (by rfl) rfl,
   (Update_fail_fast.2 exFaultFourthCall exStoreAB
      (applyLoop exFaultFourthCall exStoreAB [exA, exB] [exB] []).2 [exA, exB] [exB] exC [exX]
      [exA] ["T.b"] (Prod.ext (by rfl) rfl)).2.2.1
      (.notFound exC.md.ptr) (.failure "connection refused") _ _ rfl rfl rfl,
   by decide, by decide⟩

/-- C17. Removal-candidate matching in `Update`.  For a previous set of pairwise-distinct
identities and any new set, under any failure schedule: the candidate list left by a
completed apply pass is the sublist of the previous objects that no new object matches,
in previous-manifest order; the deletion pass is `deleteResource` run over exactly that
list in that order; and every destroy issued in the call addresses a previous object
that no new object matches, so no identity of the new manifest is destroyed. -/
theorem Update_removal_candidates :
    (∀ (flt : Faults) (st st1 : State) (prev new out : List Resource) (ids : List String),
      prev.Pairwise (fun a b => resourcesMatch a b = false) →
      applyLoop flt st prev new [] = (.ok (out, ids), st1) →
      out = prev.filter (fun s => !new.any (fun n => resourcesMatch s n))) ∧
    (∀ (flt : Faults) (st : State) (prev new : List Resource),
      prev.Pairwise (fun a b => resourcesMatch a b = false) →
      Update .Background flt st (manifest prev) (manifest new) =
        match applyLoop flt st prev new [] with
        | (.error err, st1) => (.error ⟨errUpdateFailed, err⟩, st1)
        | (.ok (_, idArr), st1) =>
          match deleteLoop flt st1
            (prev.filter (fun s => !new.any (fun n => resourcesMatch s n))) with
          | (some err, st2) => (.error ⟨errDeleteFailed, err⟩, st2)
          | (none, st2) => (.ok (generateResourceId idArr), st2)) ∧
    (∀ (flt : Faults) (st : State) (prev new : List Resource),
      prev.Pairwise (fun a b => resourcesMatch a b = false) →
      ∃ L, (Update .Background flt st (manifest prev) (manifest new)).2.log = st.log ++ L ∧
        ∀ p, StoreOp.destroy p ∈ L →
          (∃ s ∈ prev, s.md.ptr = p) ∧ ∀ n ∈ new, n.md.ptr ≠ p) := by
  have hcands : ∀ (flt : Faults) (st st1 : State) (prev new out : List Resource)
      (ids : List String), prev.Pairwise (fun a b => resourcesMatch a b = false) →
      applyLoop flt st prev new [] = (.ok (out, ids), st1) →
      out = prev.filter (fun s => !new.any (fun n => resourcesMatch s n)) := by
    intro flt st st1 prev new out ids hd h
    rw [applyLoop_cands flt new st prev [] out ids st1 h, foldl_removeMatch_eq_filter new prev hd]
  refine ⟨hcands, ?_, ?_⟩
  · intro flt st prev new hd
    rw [Update_manifest]
    rcases ha : applyLoop flt st prev new [] with ⟨res, st1⟩
    cases res with
    | error err => rfl
    | ok pr =>
      obtain ⟨out, ids⟩ := pr
      simp only
      rw [hcands flt st st1 prev new out ids hd ha]
  · intro flt st prev new hd
    rw [Update_manifest]
    obtain ⟨L1, hL1, hk1⟩ := applyLoop_log flt new st prev []
    rcases ha : applyLoop flt st prev new [] with ⟨res, st1⟩
    rw [ha] at hL1
    simp only at hL1
    have hno1 : ∀ p, StoreOp.destroy p ∉ L1 := fun p hp => hk1 _ hp rfl
    cases res with
    | error err =>
      exact ⟨L1, by simp [hL1], fun p hp => absurd hp (hno1 p)⟩
    | ok pr =>
      obtain ⟨out, ids⟩ := pr
      have hout := hcands flt st st1 prev new out ids hd ha
      obtain ⟨L2, hL2, hk2⟩ := deleteLoop_log flt out st1
      have hfinal : (match deleteLoop flt st1 out with
          | (some err, st2) => ((Outcome.error ⟨errDeleteFailed, err⟩ : Outcome String), st2)
          | (none, st2) => (.ok (generateResourceId ids), st2)).2.log =
          st.log ++ (L1 ++ L2) := by
        rcases hdl : deleteLoop flt st1 out with ⟨r2, st2⟩
        rw [hdl] at hL2
        simp only at hL2
        cases r2 <;> simp [hL2, hL1]
      refine ⟨L1 ++ L2, hfinal, ?_⟩
      intro p hp
      rcases List.mem_append.mp hp with h | h
      · exact absurd h (hno1 p)
      · obtain ⟨x, hx, hor⟩ := hk2 _ h
        have hxp : x.md.ptr = p := by
          rcases hor with h1 | h1
          · simp at h1
          · simpa using h1.symm
        rw [hout, List.mem_filter] at hx
        refine ⟨⟨x, hx.1, hxp⟩, ?_⟩
        intro n hn hnp
        have hx2 := hx.2
        simp only [Bool.not_eq_true', List.any_eq_false] at hx2
        have hm := hx2 n hn
        exact hm ((resourcesMatch_iff_ptr x n).mpr (hxp.trans hnp.symm))

/-- Witness for C17: previous `[exA, exB, exC]` and new `[exB, exX]` on the example store
leave the candidates `[exA, exC]`; `exA` is read and destroyed, `exC` is read and found
absent, and `exB` is not destroyed. -/
theorem Update_removal_candidates_witness :
    [exA, exB, exC].Pairwise (fun a b => resourcesMatch a b = false) ∧
    [exA, exC] =
      [exA, exB, exC].filter (fun s => !([exB, exX].any (fun n => resourcesMatch s n))) ∧
    (Update .Background noFaults exStoreAB (manifest [exA, exB, exC])
        (manifest [exB, exX])).2.log =
      [.get exB.md.ptr, .update (exB.SetVersion (some 7)), .get exX.md.ptr, .create exX,
       .get exA.md.ptr, .destroy exA.md.ptr, .get exC.md.ptr] :=
  ⟨by decide,
   Update_removal_candidates.1 noFaults exStoreAB
     (applyLoop noFaults exStoreAB [exA, exB, exC] [exB, exX] []).2 [exA, exB, exC] [exB, exX]
     [exA, exC] ["T.b", "T.x"] (by decide) (Prod.ext (by rfl) rfl),
   by decide⟩

/-! ## Duplicated identities -/

theorem processResource_update_objs (st : State) (r : Resource) :
    ∃ st1 y, processResource noFaults st r .ModeCreateOrUpdate = (none, st1) ∧
      st1.objs r.md.ptr = some y ∧ y.spec = r.spec ∧ y.md.ptr = r.md.ptr ∧
      ∀ p, p ≠ r.md.ptr → st1.objs p = st.objs p := by
  cases h : st.objs r.md.ptr with
  | none =>
    refine ⟨_, r, processResource_absent st r _ h, by simp, rfl, rfl, ?_⟩
    intro p hp
    simp [hp]
  | some cur =>
    refine ⟨_, (r.SetVersion cur.md.version).SetVersion cur.md.version.Next,
      processResource_present_update st r cur h, by simp, rfl, rfl, ?_⟩
    intro p hp
    simp [hp]

theorem applyLoop_last_wins (new : List Resource) :
    ∀ (st : State) (cands : List Resource) (idArr : List String),
      ∃ st1 res, applyLoop noFaults st cands new idArr = (.ok res, st1) ∧
        (∀ p, (∀ r ∈ new, r.md.ptr ≠ p) → st1.objs p = st.objs p) ∧
        (∀ pre x post, new = pre ++ x :: post → (∀ r ∈ post, r.md.ptr ≠ x.md.ptr) →
          ∃ y, st1.objs x.md.ptr = some y ∧ y.spec = x.spec ∧ y.md.ptr = x.md.ptr) := by
  induction new with
  | nil =>
    intro st cands idArr
    exact ⟨st, (cands, idArr), by simp [applyLoop], fun p _ => rfl, by simp⟩
  | cons r rest ih =>
    intro st cands idArr
    obtain ⟨s1, y, hp, hy, hspec, hptr, hother⟩ := processResource_update_objs st r
    obtain ⟨s2, res, h2, hkeep, hlast⟩ := ih s1 (removeMatch cands r) (idArr ++ [idString r])
    refine ⟨s2, res, by simp [applyLoop, hp, h2], ?_, ?_⟩
    · intro p hne
      rw [hkeep p (fun x hx => hne x (List.mem_cons_of_mem _ hx))]
      exact hother p (fun h => hne r (List.mem_cons_self _ _) h.symm)
    · intro pre x post hsplit hpost
      cases pre with
      | nil =>
        simp only [List.nil_append, List.cons.injEq] at hsplit
        obtain ⟨hrx, hrest⟩ := hsplit
        subst hrx
        subst hrest
        exact ⟨y, by rw [hkeep _ hpost]; exact hy, hspec, hptr⟩
      | cons a pre2 =>
        simp only [List.cons_append, List.cons.injEq] at hsplit
        exact hlast pre2 x post hsplit.2 hpost

/-- C14, counterexample.  Create-only convergence of a desired set holding the identity
of `exA` twice, first with spec `spec-a` and then with spec `spec-a2`, fails on the second
occurrence with the already-exists error, and the store holds the first occurrence's
spec, not the later one's. -/
theorem Create_duplicate_first_wins :
    resourcesMatch exA exA2 = true ∧ exA.spec ≠ exA2.spec ∧
    (Create .Background noFaults .empty (manifest [exA, exA2])).1 =
      .error ⟨"Creation Error", "resource \x27a\x27 of type \x27T\x27 already exists"⟩ ∧
    (Create .Background noFaults .empty (manifest [exA, exA2])).2.objs exA2.md.ptr = some exA ∧
    (Create .Background noFaults .empty (manifest [exA, exA2])).2.log =
      [.get exA.md.ptr, .create exA, .get exA2.md.ptr] :=
  ⟨by decide, by decide, by rfl, by decide, by decide⟩

/-- C14, amended.  The system does not deduplicate.  In create-or-update convergence, with
previous identities pairwise distinct and no failing store call, every object of the new
set is processed in order, duplicates included (a read, then an update if the identity is
stored by then and a create otherwise), and the last occurrence wins: after the call the
store holds, under that identity, the spec of the last new object that has it.  In
create-only convergence the second occurrence of an identity meets the already-exists
guard: the call fails there and the store keeps the first occurrence. -/
theorem duplicates_last_write_wins :
    (∀ (st : State) (prev pre : List Resource) (x : Resource) (post : List Resource),
      prev.Pairwise (fun a b => resourcesMatch a b = false) →
      (∀ r ∈ post, resourcesMatch r x = false) →
      ∃ st2 y Ldel, Update .Background noFaults st (manifest prev) (manifest (pre ++ x :: post)) =
          (.ok (generateResourceId ((pre ++ x :: post).map idString)), st2) ∧
        st2.log.map StoreOp.kind = st.log.map StoreOp.kind ++
          diffApplyOps st.present (pre ++ x :: post) ++ Ldel ∧
        st2.objs x.md.ptr = some y ∧ y.spec = x.spec ∧ y.md.ptr = x.md.ptr) ∧
    (∀ (st : State) (pre : List Resource) (x r : Resource) (post : List Resource),
      pre.Pairwise (fun a b => resourcesMatch a b = false) →
      (∀ a ∈ pre, st.objs a.md.ptr = none) →
      x ∈ pre → resourcesMatch x r = true →
      ∃ st1, Create .Background noFaults st (manifest (pre ++ r :: post)) =
          (.error ⟨errCreationFailed, alreadyExistsMsg r⟩, st1) ∧
        st1.objs r.md.ptr = some x) := by
  constructor
  · intro st prev pre x post hd hpost
    obtain ⟨st2, hres, hlog, _⟩ := Update_noFaults st prev (pre ++ x :: post)
    obtain ⟨s1, res, ha, _, hlast⟩ := applyLoop_last_wins (pre ++ x :: post) st prev []
    obtain ⟨y, hy, hspec, hptr⟩ := hlast pre x post rfl
      (fun r hr => (resourcesMatch_false_iff_ptr r x).mp (hpost r hr))
    obtain ⟨out, ids⟩ := res
    have hout : out = prev.filter
        (fun s => !(pre ++ x :: post).any (fun n => resourcesMatch s n)) :=
      by rw [applyLoop_cands noFaults _ st prev [] out ids s1 ha,
        foldl_removeMatch_eq_filter _ prev hd]
    obtain ⟨s2, hdel, _, hobj⟩ := deleteLoop_noFaults out s1
    have hst2 : st2 = s2 := by
      have h := hres
      rw [Update_manifest, ha] at h
      simp only [hdel, Prod.mk.injEq] at h
      exact h.2.symm
    have hnot : out.any (fun r => decide (r.md.ptr = x.md.ptr)) = false := by
      rw [List.any_eq_false]
      intro c hc
      rw [hout, List.mem_filter] at hc
      have h2 := hc.2
      simp only [Bool.not_eq_true', List.any_eq_false] at h2
      have h3 := h2 x (by simp)
      simpa using (resourcesMatch_false_iff_ptr c x).mp (by simpa using h3)
    refine ⟨st2, y, _, hres, hlog, ?_, hspec, hptr⟩
    rw [hst2, hobj, hnot]
    simpa using hy
  · intro st pre x r post hd ha hx hm
    obtain ⟨st1, h1, _, hin1, _⟩ := createLoop_fresh pre st [] hd ha
    have hcur : st1.objs r.md.ptr = some x := by
      rw [← (resourcesMatch_iff_ptr x r).mp hm]; exact hin1 x hx
    refine ⟨st1.record (.get r.md.ptr), ?_, by simpa [State.record] using hcur⟩
    simp [Create, decode_manifest, createLoop_append, h1, createLoop,
      processResource_present_createOnly st1 r x hcur]

/-- Witness for C14: the new set `[exA, exB, exA2]` on the example store leaves `exA2`'s
spec stored under the identity of `exA`; the create-only run of `[exA, exA2]` on the
empty store keeps `exA`. -/
theorem duplicates_last_write_wins_witness :
    [exA, exB].Pairwise (fun a b => resourcesMatch a b = false) ∧
    (∀ r ∈ ([] : List Resource), resourcesMatch r exA2 = false) ∧
    (∃ st2 y Ldel, Update .Background noFaults exStoreAB (manifest [exA, exB])
          (manifest ([exA, exB] ++ exA2 :: [])) =
        (.ok (generateResourceId (([exA, exB] ++ exA2 :: []).map idString)), st2) ∧
      st2.log.map StoreOp.kind = exStoreAB.log.map StoreOp.kind ++
        diffApplyOps exStoreAB.present ([exA, exB] ++ exA2 :: []) ++ Ldel ∧
      st2.objs exA2.md.ptr = some y ∧ y.spec = exA2.spec ∧ y.md.ptr = exA2.md.ptr) ∧
    (Update .Background noFaults exStoreAB (manifest [exA, exB])
        (manifest [exA, exB, exA2])).2.objs exA.md.ptr = some (exA2.SetVersion (some 5)) ∧
    (∃ st1, Create .Background noFaults .empty (manifest ([exA] ++ exA2 :: [])) =
        (.error ⟨errCreationFailed, alreadyExistsMsg exA2⟩, st1) ∧
      st1.objs exA2.md.ptr = some exA) :=
  ⟨by decide, by simp,
   duplicates_last_write_wins.1 exStoreAB [exA, exB] [exA, exB] exA2 [] (by decide) (by simp),
   by decide,
   duplicates_last_write_wins.2 .empty [exA] exA exA2 [] (by decide) (by decide) (by simp)
     (by decide)⟩

/-- C18. A previous set that holds an identity twice and a new set that holds it once:
since each new object removes only the first matching removal candidate, for every store
and every object `x`, with no failing store call, `Update` from previous `[x, x]` to new
`[x]` succeeds, first creates or updates `x` and then destroys it in the same call; the
store ends without `x` although the returned ID is the digest that includes it. -/
theorem Update_duplicate_previous_destroys :
    (∀ (st : State) (x : Resource), ∃ st2,
      Update .Background noFaults st (manifest [x, x]) (manifest [x]) =
        (.ok (generateResourceId [idString x]), st2) ∧
      st2.log.map StoreOp.kind = st.log.map StoreOp.kind ++
        [(.get, x.md.ptr),
         ((if st.present x.md.ptr then OpKind.update else OpKind.create), x.md.ptr),
         (.get, x.md.ptr), (.destroy, x.md.ptr)] ∧
      st2.objs x.md.ptr = none) ∧
    (Update .Background noFaults .empty (manifest [exA, exA]) (manifest [exA])).1 =
      .ok (generateResourceId ["T.a"]) ∧
    (Update .Background noFaults .empty (manifest [exA, exA]) (manifest [exA])).2.log =
      [.get exA.md.ptr, .create exA, .get exA.md.ptr, .destroy exA.md.ptr] ∧
    (Update .Background noFaults .empty (manifest [exA, exA]) (manifest [exA])).2.objs
      exA.md.ptr = none := by
  refine ⟨?_, by rfl, by decide, by decide⟩
  intro st x
  obtain ⟨st2, hres, hlog, hpres⟩ := Update_noFaults st [x, x] [x]
  have hxx : resourcesMatch x x = true := (resourcesMatch_iff_ptr x x).mpr rfl
  have hc : [x].foldl removeMatch [x, x] = [x] := by
    simp [removeMatch, hxx]
  rw [hc] at hlog hpres
  refine ⟨st2, by simpa using hres, ?_, ?_⟩
  · rw [hlog]
    simp [diffApplyOps, diffDeleteOps]
  · have h := hpres x.md.ptr
    simp [State.present] at h
    exact h

/-! ## The provider -/

/-- C15 (code evaluated at the failing input).  `omniProvider.Resources` returns the
empty list: `NewApplyYamlResource` is not in it, so the resource type `omni_apply_yaml`,
which is what `applyYamlResource.Metadata` reports for the provider type name `omni`, is
not among the types the provider serves, while both data source constructors are
registered by `DataSources`. -/
theorem omniProvider_Resources_empty :
    omniProvider.Resources = [] ∧
    ResourceConstructor.NewApplyYamlResource ∉ omniProvider.Resources ∧
    applyYamlResource.Metadata omniProvider.Metadata = "omni_apply_yaml" ∧
    "omni_apply_yaml" ∉ servedResourceTypes ∧
    servedDataSourceTypes = ["omni_machines", "omni_installation_media"] := by
  refine ⟨rfl, by simp [omniProvider.Resources], by decide, ?_, by decide⟩
  simp [servedResourceTypes, omniProvider.Resources]

end Omni
